import Mathlib

/-!
Verification of the pysm patch-diff library: a shallow embedding of the
parser/applier pipeline together with proofs about its behaviour.
-/

namespace Pysm

/-- Python exception values that the embedded code can raise.  Parse errors
carry their message string, as the source distinguishes several messages of
the same exception class. -/
inductive PyErr where
  | parseErr : String → PyErr
  | dataErr : String → PyErr
  | indexErr : PyErr
  | typeErr : String → PyErr
  | unboundLocal : String → PyErr
  | malformedSummary : PyErr
  | tooManyStripLevels : PyErr
  | zlibErr : PyErr
  | fuel : PyErr
  deriving DecidableEq, Repr

instance {ε β : Type} [DecidableEq ε] [DecidableEq β] : DecidableEq (Except ε β) := fun x y =>
  match x, y with
  | .ok a, .ok b =>
    if h : a = b then isTrue (by rw [h]) else isFalse (by intro hh; cases hh; exact h rfl)
  | .error a, .error b =>
    if h : a = b then isTrue (by rw [h]) else isFalse (by intro hh; cases hh; exact h rfl)
  | .ok _, .error _ => isFalse (by intro hh; cases hh)
  | .error _, .ok _ => isFalse (by intro hh; cases hh)

/-- `lines[i]` in Python: raises IndexError when out of range. -/
def pyGet (l : List α) (i : Nat) : Except PyErr α :=
  match l.get? i with
  | some x => .ok x
  | none => .error .indexErr

/-- `l[i:j]` in Python for non-negative bounds (clamping semantics). -/
def pySlice (l : List α) (i j : Nat) : List α :=
  (l.take j).drop i

/-- Normalise a Python index for slicing a list of `n` elements: negative
indices count from the end, and the result is clamped into `[0, n]`. -/
def pyNormIdx (n : Nat) (i : Int) : Nat :=
  let j : Int := if i < 0 then (n : Int) + i else i
  (min j (n : Int)).toNat

/-- Python slice `l[a:b]` where `a` and `b` may be negative. -/
def pyIntSlice (l : List α) (a b : Int) : List α :=
  pySlice l (pyNormIdx l.length a) (pyNormIdx l.length b)

/-- Python slice `l[a:]` where `a` may be negative. -/
def pyIntDrop (l : List α) (a : Int) : List α :=
  l.drop (pyNormIdx l.length a)

/-- Python slice `l[fm:to]` where either bound may be `None`. -/
def pySliceFT (l : List α) (fm tn : Option Int) : List α :=
  pyIntSlice l (fm.getD 0) (tn.getD l.length)

/-- The number of leading elements of `l` satisfying `p` (the extent of a
Python `while` loop that advances one line per matching line). -/
def countWhile (p : α → Bool) : List α → Nat
  | [] => 0
  | x :: xs => if p x then countWhile p xs + 1 else 0

namespace ADiff

/-! ### Embedding of `a_diff.py`: the abstract-diff applier. -/

/-- `a_diff.lines_contains_sub_lines_at`: does `lines` contain `sub_lines`
starting at `index`?  (`lines[index:index+len(sub_lines)] == sub_lines`.) -/
def linesContainsSubLinesAt (lines subLines : List String) (index : Int) : Bool :=
  pyIntSlice lines index (index + subLines.length) == subLines

/-- `a_diff.find_first_sub_lines`: index of the first instance of
`sub_lines` in `lines` from `offset` on (`range(offset, len(lines) -
len(sub_lines) + 1)`), or `None`. -/
def findFirstSubLines (lines subLines : List String) (offset : Int) : Option Int :=
  ((List.range (((lines.length : Int) - subLines.length + 1) - offset).toNat).map
      (fun k : Nat => offset + (k : Int))).find?
    (fun i => linesContainsSubLinesAt lines subLines i)

/-- `a_diff.first_inequality_fm_head`: first index from the front at which
the two line lists disagree (the length of their shared head).  Defined in
`a_diff.py` but never called by any code in the repository. -/
def firstInequalityFmHead (lines1 lines2 : List String) : Nat :=
  go lines1 lines2
where
  go : List String → List String → Nat
    | x :: xs, y :: ys => if x ≠ y then 0 else go xs ys + 1
    | _, _ => 0

/-- `a_diff.AbstractChunk` (`start_index` is an unbounded Python int). -/
structure AbstractChunk where
  start_index : Int
  lines : List String
  deriving DecidableEq, Repr, Inhabited

/-- `AbstractChunk.matches_lines`. -/
def AbstractChunk.matchesLines (c : AbstractChunk) (lines : List String) (offset : Int) : Bool :=
  linesContainsSubLinesAt lines c.lines (c.start_index + offset)

/-- `a_diff.AbstractHunk`: a four-field namedtuple. -/
structure AbstractHunk where
  before : AbstractChunk
  after : AbstractChunk
  pre_cntxt_len : Nat
  post_cntxt_len : Nat
  deriving DecidableEq, Repr, Inhabited

/-- `AbstractHunk.get_before_compromised_posn`; the source's `fuzz_factor`
parameter defaults to `2` at its call site in `apply_forwards`.  Returns
`(start_index, pre_context_redn, post_context_redn)` on success;
`(None, None, None)` is modelled as `none`. -/
def AbstractHunk.getBeforeCompromisedPosn (h : AbstractHunk) (lines : List String)
    (offset : Int) (fuzzFactor : Nat) : Option (Int × Nat × Nat) :=
  (List.range (min fuzzFactor (max h.pre_cntxt_len h.post_cntxt_len) + 1)).findSome?
    (fun contextRedn =>
      let preContextRedn := min contextRedn h.pre_cntxt_len
      let postContextRedn := min contextRedn h.post_cntxt_len
      -- fm = pre_context_redn if pre_context_redn else None
      -- to = -post_context_redn if post_context_redn else None
      let sub := pySliceFT h.before.lines
        (if preContextRedn = 0 then none else some (preContextRedn : Int))
        (if postContextRedn = 0 then none else some (-(postContextRedn : Int)))
      match findFirstSubLines lines sub offset with
      | some startIndex => some (startIndex, preContextRedn, postContextRedn)
      | none => none)

/-- `AbstractHunk.is_already_applied_forward`. -/
def AbstractHunk.isAlreadyAppliedForward (h : AbstractHunk) (lines : List String)
    (offset : Int) : Bool :=
  let frOffset := h.before.start_index - h.after.start_index
  h.after.matchesLines lines (frOffset + offset)

/-- `AbstractDiff.first_before_mismatch`: index of the first hunk from
`skipping` on whose `before` chunk does not match `lines` at `offset`. -/
def firstBeforeMismatch (hunks : List AbstractHunk) (lines : List String)
    (skipping : Nat) (offset : Int) : Option Nat :=
  (List.range' skipping (hunks.length - skipping)).find?
    (fun index => ! ((hunks.getD index default).before.matchesLines lines offset))

/-- Modelled from the spec: the severity codes of the external `CmdResult`
(imported from `..bab`, which is not part of this repository); the spec
fixes the ordering `OK < WARNING < ERROR` with `ecode` the monotone
maximum (§4.9). -/
inductive ECode where
  | OK
  | WARNING
  | ERROR
  deriving DecidableEq, Repr

/-- Numeric severity used to take maxima. -/
def ECode.sev : ECode → Nat
  | .OK => 0
  | .WARNING => 1
  | .ERROR => 2

/-- `max(ecode, e)` on severities. -/
def ECode.emax (a b : ECode) : ECode :=
  if a.sev ≤ b.sev then b else a

/-- One diagnostic written to `rctx.stderr` by `apply_forwards`; the exact
message formatting (via `get_before_applied_posn`) is elided, the event
records which branch ran for which hunk and, for a conflict, exactly the
line blocks the branch spliced into the output. -/
inductive ApplyEvent where
  | merged : Nat → ApplyEvent
  | alreadyApplied : Nat → ApplyEvent
  | conflict : Nat → List String → List String → ApplyEvent
  | unexpectedEOF : Nat → Nat → ApplyEvent
  deriving DecidableEq, Repr

/-- The mutable local state of `AbstractDiff.apply_forwards`.  `hunkVar` is
the `for`-loop variable `hunk`, which in Python persists across loop
iterations and is unbound (`none`) before the first fast-path iteration. -/
structure ApplyState where
  result : List String
  linesIndex : Int
  ecode : ECode
  numHunksDone : Nat
  currentOffset : Int
  hunkVar : Option AbstractHunk
  events : List ApplyEvent
  deriving Repr

/-- The body of `for hunk in self._hunks[num_hunks_done:first_mismatch]`. -/
def fastStep (lines : List String) (st : ApplyState) (hunk : AbstractHunk) : ApplyState :=
  { st with
    result := st.result
      ++ pyIntSlice lines st.linesIndex (hunk.before.start_index + st.currentOffset)
      ++ hunk.after.lines
    linesIndex := hunk.before.start_index + st.currentOffset + hunk.before.lines.length
    numHunksDone := st.numHunksDone + 1
    hunkVar := some hunk }

/-- One iteration of the `while num_hunks_done < len(self._hunks)` loop of
`apply_forwards`: `.inl st` means the iteration executed `break`, `.inr st`
means the loop continues with state `st`. -/
def applyStep (hunks : List AbstractHunk) (lines : List String) (st0 : ApplyState) :
    Except PyErr (ApplyState ⊕ ApplyState) :=
  match firstBeforeMismatch hunks lines st0.numHunksDone st0.currentOffset with
  | none => .ok (.inl ((hunks.drop st0.numHunksDone).foldl (fastStep lines) st0))
  | some firstMismatch =>
    let st := (pySlice hunks st0.numHunksDone firstMismatch).foldl (fastStep lines) st0
    let st := { st with ecode := st.ecode.emax .WARNING }
    let mHunk := hunks.getD firstMismatch default
    match mHunk.getBeforeCompromisedPosn lines st.linesIndex 2 with
    | some (altStartIndex, preContextRedn, postContextRedn) =>
      .ok (.inr
        { st with
          result := st.result
            ++ pyIntSlice lines st.linesIndex altStartIndex
            ++ pySliceFT mHunk.after.lines (some (preContextRedn : Int))
                 (if postContextRedn = 0 then none else some (-(postContextRedn : Int)))
          linesIndex := altStartIndex + mHunk.before.lines.length
            - preContextRedn - postContextRedn
          currentOffset := altStartIndex - mHunk.before.start_index - preContextRedn
          events := st.events ++ [.merged (firstMismatch + 1)]
          numHunksDone := st.numHunksDone + 1 })
    | none =>
      if mHunk.isAlreadyAppliedForward lines st.currentOffset then
        -- the source reads the fast-path loop variable `hunk` here, not `m_hunk`
        match st.hunkVar with
        | none => .error (.unboundLocal "hunk")
        | some hunk =>
          let stop := mHunk.after.start_index + st.currentOffset + hunk.after.lines.length
          .ok (.inr
            { st with
              result := st.result ++ pyIntSlice lines st.linesIndex stop
              linesIndex := stop
              currentOffset := st.currentOffset
                + (mHunk.after.lines.length : Int) - mHunk.before.lines.length
              events := st.events ++ [.alreadyApplied (firstMismatch + 1)]
              numHunksDone := st.numHunksDone + 1 })
      else
        let st := { st with ecode := st.ecode.emax .ERROR }
        let beforeHlen : Int := (mHunk.before.lines.length : Int) - mHunk.post_cntxt_len
        if mHunk.before.start_index + st.currentOffset + beforeHlen > (lines.length : Int) then
          .ok (.inl { st with
                events := st.events ++ [.unexpectedEOF (st.numHunksDone + 1) hunks.length] })
        else
          let result1 := st.result
            ++ pyIntSlice lines st.linesIndex (mHunk.before.start_index + st.currentOffset)
          let linesIndex1 := mHunk.before.start_index + st.currentOffset
          let window := pyIntSlice lines linesIndex1 (linesIndex1 + beforeHlen)
          let afterPart := pySliceFT mHunk.after.lines none
            (if mHunk.post_cntxt_len = 0 then none else some (-(mHunk.post_cntxt_len : Int)))
          .ok (.inr
            { st with
              result := result1
                ++ ["<<<<<<<\n"] ++ window ++ ["=======\n"] ++ afterPart ++ [">>>>>>>\n"]
              linesIndex := linesIndex1 + beforeHlen
              events := st.events ++ [.conflict (firstMismatch + 1) window afterPart]
              numHunksDone := st.numHunksDone + 1 })

/-- The `while num_hunks_done < len(self._hunks)` loop of `apply_forwards`.
Fuel-indexed; every call site supplies enough fuel for the loop (which
processes at least one hunk per iteration) to complete. -/
def applyLoop (hunks : List AbstractHunk) (lines : List String) :
    Nat → ApplyState → Except PyErr ApplyState
  | 0, _ => .error .fuel
  | fuel + 1, st0 =>
    if st0.numHunksDone < hunks.length then
      match applyStep hunks lines st0 with
      | .error e => .error e
      | .ok (.inl st) => .ok st
      | .ok (.inr st) => applyLoop hunks lines fuel st
    else .ok st0

/-- `AbstractDiff.apply_forwards` on an already-built hunk list (the
`AbstractDiff` constructor itself converts text hunks through
`get_abstract_diff_hunk`, embedded separately).  Returns `(ecode, result)`
plus the diagnostic events. -/
def applyForwards (hunks : List AbstractHunk) (lines : List String) :
    Except PyErr (ECode × List String × List ApplyEvent) := do
  let st ← applyLoop hunks lines (hunks.length + 1)
    { result := [], linesIndex := 0, ecode := .OK, numHunksDone := 0,
      currentOffset := 0, hunkVar := none, events := [] }
  .ok (st.ecode, st.result ++ pyIntDrop lines st.linesIndex, st.events)

/-- `block` occurs contiguously inside `res`. -/
def ContainsBlock (block res : List String) : Prop :=
  ∃ s t, res = s ++ block ++ t

/-- The exact lines the conflict branch of `apply_forwards` splices into the
result: the three seven-character marker lines, each its own line ending in
a single newline, around the before window and the truncated after lines. -/
def conflictBlock (w a : List String) : List String :=
  ["<<<<<<<\n"] ++ w ++ ["=======\n"] ++ a ++ [">>>>>>>\n"]

/-- Every conflict event already recorded has its block in the result. -/
def GoodState (st : ApplyState) : Prop :=
  ∀ n w a, ApplyEvent.conflict n w a ∈ st.events →
    ContainsBlock (conflictBlock w a) st.result


/-- `sub` occurs in `lines` at position `i`: the window fits inside the
list and matches. -/
def occursAt (lines sub : List String) (i : Nat) : Bool :=
  decide (i + sub.length ≤ lines.length) && ((lines.drop i).take sub.length == sub)

/-- Written from the claim: the first position at or after the cursor
`offset` at which `sub` occurs in `lines`. -/
def specFirstOccurrence (lines sub : List String) (offset : Int) : Option Nat :=
  (List.range (lines.length + 1)).find?
    (fun i => decide (offset ≤ (i : Int)) && occursAt lines sub i)

/-- Written from the claim (C5): try context reductions
`r = 0, 1, …, min(2, max(pre_context_len, post_context_len))` in increasing
order; for each `r` set `pre_redn = min r pre_context_len` and
`post_redn = min r post_context_len`, drop `pre_redn` lines from the head
and `post_redn` lines from the tail of `before.lines`, search forward from
the cursor for the first occurrence of the result, and return the first
placement found. -/
def specFuzzyPlacement (h : AbstractHunk) (lines : List String) (offset : Int) :
    Option (Int × Nat × Nat) :=
  (List.range (min 2 (max h.pre_cntxt_len h.post_cntxt_len) + 1)).findSome?
    (fun r =>
      let preRedn := min r h.pre_cntxt_len
      let postRedn := min r h.post_cntxt_len
      let sub := (h.before.lines.take (h.before.lines.length - postRedn)).drop preRedn
      (specFirstOccurrence lines sub offset).map (fun i : Nat => ((i : Int), preRedn, postRedn)))

/-- The abstract hunk replacing line `a` by line `b` at the top of a file
(no context lines). -/
def exampleHunkAB : AbstractHunk :=
  { before := { start_index := 0, lines := ["a\n"] },
    after := { start_index := 0, lines := ["b\n"] },
    pre_cntxt_len := 0, post_cntxt_len := 0 }

/-- The abstract hunk of the spec's end-to-end scenario: replace `c` by
`C`, `C2` with two lines of pre-context and one line of post-context. -/
def exampleHunkCtx : AbstractHunk :=
  { before := { start_index := 0, lines := ["a\n", "b\n", "c\n", "d\n"] },
    after := { start_index := 0, lines := ["a\n", "b\n", "C\n", "C2\n", "d\n"] },
    pre_cntxt_len := 2, post_cntxt_len := 1 }

end ADiff

namespace TDiff

/-! ### Embedding of `t_diff.py`: text-diff hunks and their conversion to
abstract hunks. -/

/-- `t_diff.StartAndLength`. -/
structure StartAndLength where
  start : Int
  length : Int
  deriving DecidableEq, Repr

/-- `t_diff.TextDiffHunk`: the raw hunk line slice plus the before/after
`StartAndLength` descriptors. -/
structure TextDiffHunk where
  lines : List String
  before : StartAndLength
  after : StartAndLength
  deriving DecidableEq, Repr

/-- `line.rstrip(os.linesep + "\n")` on a Unix host: strip trailing
newline characters. -/
def pyRstripNewline (s : String) : String :=
  s.dropRightWhile (fun c => c = '\n')

/-- The loop of `TextDiffHunk._iter_lines(lines, skip_if_starts_with)` run
on the sequence from index 1 on: emit each non-skipped element without its
first character (newline-stripped when the next element is a `\`-marker),
and step over `\`-marker elements. -/
def iterLinesBody (skip : Option String) : List String → List String
  | [] => []
  | [x] =>
    if skip.elim true (fun sk => ! x.startsWith sk) then [x.drop 1] else []
  | x :: y :: rest =>
    let emitted :=
      if skip.elim true (fun sk => ! x.startsWith sk) then
        if y.startsWith "\\" then [pyRstripNewline (x.drop 1)] else [x.drop 1]
      else []
    if y.startsWith "\\" then emitted ++ iterLinesBody skip rest
    else emitted ++ iterLinesBody skip (y :: rest)

/-- `iter_before_lines`: the call is `self._iter_lines("+")`, but
`_iter_lines` is a `@staticmethod(lines, skip_if_starts_with=None)`, so the
string `"+"` itself is bound to `lines` (and `skip` stays `None`).  Python
then indexes the one-character string from index 1 on — each element a
one-character string — so the loop never runs and the iterator is empty. -/
def TextDiffHunk.iterBeforeLines (_ : TextDiffHunk) : List String :=
  iterLinesBody none (("+".data.map Char.toString).drop 1)

/-- `iter_after_lines`: `self._iter_lines("-")`, same static-method call
shape as `iter_before_lines`. -/
def TextDiffHunk.iterAfterLines (_ : TextDiffHunk) : List String :=
  iterLinesBody none (("-".data.map Char.toString).drop 1)

/-- `TextDiffHunk.get_abstract_diff_hunk`.  The final statement of the
source is `return a_diff.AbstractHunk(before, after)`: `AbstractHunk` is a
namedtuple with the four required fields `before`, `after`,
`pre_cntxt_len`, `post_cntxt_len`, so the two-argument construction raises
`TypeError` — nothing derives the context lengths (the
`first_inequality_fm_head`/`_fm_tail` helpers in `a_diff.py` are never
called). -/
def TextDiffHunk.getAbstractDiffHunk (h : TextDiffHunk) : Except PyErr ADiff.AbstractHunk :=
  let bLines := h.iterBeforeLines
  let bStartIndex : Int := if bLines.length ≠ 0 then h.before.start - 1 else h.before.start
  let _before : ADiff.AbstractChunk := { start_index := bStartIndex, lines := bLines }
  let _after : ADiff.AbstractChunk := { start_index := h.after.start - 1, lines := h.iterAfterLines }
  .error (.typeErr "AbstractHunk.__new__ missing pre_cntxt_len and post_cntxt_len")

end TDiff

namespace PdUtils

/-- `pd_utils.gen_strip_level_function(level)` applied to `path`:
`level = 0` returns the path unchanged; an absolute path is returned
unchanged; otherwise `path.split(os.sep, level)[level]` keeps everything
after the first `level` separators and raises `TooManyStripLevels` when
there are not that many separators (Unix separator). -/
def stripLevel (level : Nat) (path : String) : Except PyErr String :=
  if level = 0 then .ok path
  else if path.startsWith "/" then .ok path
  else
    let components := path.splitOn "/"
    if components.length ≤ level then .error .tooManyStripLevels
    else .ok (String.intercalate "/" (components.drop level))

/-- `pd_utils.is_non_null` on a string: non-empty and not `/dev/null`. -/
def isNonNullStr (s : String) : Bool :=
  s ≠ "" && s ≠ "/dev/null"

/-- `pd_utils.file_path_fm_pair`: the stripped `after` path if non-null,
else the stripped `before` path if non-null, else `None`. -/
def filePathFmPair (pair : String × String) (strip : String → Except PyErr String) :
    Except PyErr (Option String) :=
  if isNonNullStr pair.2 then (strip pair.2).map some
  else if isNonNullStr pair.1 then (strip pair.1).map some
  else .ok none

end PdUtils

namespace DiffPreamble

/-! ### Embedding of `diff_preamble.py`: preambles and their path lookup. -/

/-- The three preamble variants with their `file_data` shapes: `git` and
`diff` carry a before/after path pair (plus extras), `index` a single
path. -/
inductive Preamble where
  | git : List String → (String × String) → List (String × String) → Preamble
  | diff : List String → (String × String) → Option String → Preamble
  | index : List String → String → Preamble
  deriving DecidableEq, Repr

/-- `preamble_type_id` of each variant. -/
def Preamble.typeId : Preamble → String
  | .git _ _ _ => "git"
  | .diff _ _ _ => "diff"
  | .index _ _ => "index"

/-- The stored line slice of a preamble. -/
def Preamble.plines : Preamble → List String
  | .git l _ _ => l
  | .diff l _ _ => l
  | .index l _ => l

/-- `get_file_path` of the individual preamble classes: `git` and `diff`
go through `file_path_fm_pair`; `index` strips its single path with no
non-null check. -/
def Preamble.getFilePath (p : Preamble) (level : Nat) : Except PyErr (Option String) :=
  match p with
  | .git _ fd _ => PdUtils.filePathFmPair fd (PdUtils.stripLevel level)
  | .diff _ fd _ => PdUtils.filePathFmPair fd (PdUtils.stripLevel level)
  | .index _ fd => (PdUtils.stripLevel level fd).map some

/-- `Preambles` is an insertion-ordered mapping from `preamble_type_id` to
the preamble of that kind (an `OrderedDict`; the parser never stores two
entries of the same kind). -/
def Preambles := List (String × Preamble)

/-- `Preambles.path_precedence`. -/
def pathPrecedence : List String := ["index", "git", "diff"]

/-- The loop of `Preambles.get_file_path` over a list of type ids:
look the kind up, and return its stripped path when that is non-empty. -/
def getFilePathLoop (ps : Preambles) (level : Nat) : List String → Except PyErr (Option String)
  | [] => .ok none
  | tid :: rest =>
    match List.lookup tid ps with
    | none => getFilePathLoop ps level rest
    | some p => do
      let path ← p.getFilePath level
      match path with
      | some s => if s ≠ "" then .ok (some s) else getFilePathLoop ps level rest
      | none => getFilePathLoop ps level rest

/-- `Preambles.get_file_path(strip_level)`. -/
def Preambles.getFilePath (ps : Preambles) (level : Nat) : Except PyErr (Option String) :=
  getFilePathLoop ps level pathPrecedence

/-- A preamble kind contributes no path: it is absent, or its
`get_file_path` returns `None` or the empty string. -/
def SkipsKind (ps : Preambles) (level : Nat) (tid : String) : Prop :=
  List.lookup tid ps = none ∨
    (∃ p, List.lookup tid ps = some p ∧
      (p.getFilePath level = .ok none ∨ p.getFilePath level = .ok (some "")))

/-- An `Index:` preamble for `src/foo.c` (spec scenario 6). -/
def examplePreambleIdx : Preamble :=
  .index ["Index: src/foo.c\n", "=======\n"] "src/foo.c"

/-- A `diff --git` preamble for the same file. -/
def examplePreambleGit : Preamble :=
  .git ["diff --git a/src/foo.c b/src/foo.c\n"] ("a/src/foo.c", "b/src/foo.c") []

/-- A preamble set holding both (spec scenario 6). -/
def examplePreambles : Preambles :=
  [("index", examplePreambleIdx), ("git", examplePreambleGit)]

end DiffPreamble

namespace Diffstat

/-! ### Embedding of `diffstat.py`: the summary-line detector. -/

/-- The five line classifiers of `diffstat.py` (`DIVIDER_LINE_CRE = ^---$`,
`BLANK_LINE_CRE = ^\s*$`, `EMPTY_CRE = ^#? 0 files changed$`,
`FSTATS_CRE`, `END_CRE`), abstracted as predicates: the counting logic of
the detector does not inspect the regex internals. -/
structure M (α : Type) where
  divider : α → Bool
  blank : α → Bool
  empty : α → Bool
  fstats : α → Bool
  endLine : α → Bool

/-- `diffstat.get_summary_length_starting_at(lines, index)`. -/
def getSummaryLengthStartingAt (m : M α) (lines : List α) (index : Nat) :
    Except PyErr Nat := do
  let start := index
  let l0 ← pyGet lines index
  let index := if m.divider l0 then index + 1 else index
  let index := index + countWhile m.blank (lines.drop index)
  if index ≥ lines.length then return 0
  let li ← pyGet lines index
  if m.empty li then return (index - start)
  let cnt := countWhile m.fstats (lines.drop index)
  let index := index + cnt
  match lines.get? index with
  | some le =>
    if m.endLine le then return (index - start)
    else if cnt = 0 then return 0
    else throw .malformedSummary
  | none =>
    if cnt = 0 then return 0 else throw .malformedSummary

/-- `diffstat.list_summary_starts_at`. -/
def listSummaryStartsAt (m : M α) (lines : List α) (index : Nat) :
    Except PyErr Bool :=
  (getSummaryLengthStartingAt m lines index).map (fun n => n ≠ 0)

/-- Classifiers agreeing with the real regexes on the concrete lines used
in the C8 evaluation (each regex matches exactly the lines listed). -/
def exampleM : M String :=
  { divider := fun l => l == "---\n"
    blank := fun l => l == "\n"
    empty := fun l => l == " 0 files changed\n"
    fstats := fun l => l == " foo | 2 ++\n"
    endLine := fun l => l == " 1 file changed, 2 insertions(+)\n" }

end Diffstat

namespace Parse

/-! ### Embedding of the parser pipeline: `diff_preamble.get_preambles_at`,
`diffs.get_diff_at` (unified / git-binary / context), `patches.Header` and
`patches.Patch.parse_lines`.

Lines have an abstract type `α`; each regular-expression match of the
source is a field of the matcher structure `M` returning the groups the
code consumes (the bookkeeping logic never inspects the regex internals).
The external `gitbase85` codec and `zlib` are the narrow interface of spec
§6: `decodeLines` (whose failure is the `AssertionError` the source turns
into `DataError`) produces an opaque zipped payload `γ`, and
`decompressLen` is `len(zlib.decompress(...))` (which may itself raise).
Loops that may consume a variable number of lines are fuel-indexed; every
entry point passes fuel larger than the line count, which the loops (each
iteration consumes at least one line) never exhaust. -/

/-- `_FILE_AND_TS`: path group and optional timestamp group. -/
structure FileData where
  path : String
  ts : Option String
  deriving DecidableEq, Repr

/-- Groups of `UnifiedDiff.HUNK_DATA_CRE`: `-(g1)(,(g3))? +(g4)(,(g6))?`. -/
structure UniHunkHdr where
  g1 : Nat
  g3 : Option Nat
  g4 : Nat
  g6 : Option Nat
  deriving DecidableEq, Repr

/-- Groups of `ContextDiff.HUNK_BEFORE_CRE` / `HUNK_AFTER_CRE`:
`(g1)(,(g3))?`. -/
structure CtxChunkHdr where
  g1 : Nat
  g3 : Option Nat
  deriving DecidableEq, Repr

/-- Groups of `DiffPreamble.CRE`: the flags group `(\s.+)` (with the
pre-computed test for the substring `--git`) and the two path groups. -/
structure DiffPreG where
  flags : String
  hasGit : Bool
  file1 : String
  file2 : String
  deriving DecidableEq, Repr

/-- One matcher per regular expression the parser consults, plus the two
external codec functions. -/
structure M (α γ : Type) where
  gitDiff : α → Option (String × String)
  gitExtra : α → Option (String × String)
  diffPre : α → Option DiffPreG
  indexFile : α → Option String
  indexSep : α → Bool
  uniBefore : α → Option FileData
  uniAfter : α → Option FileData
  uniHunk : α → Option UniHunkHdr
  startsDash : α → Bool
  startsPlus : α → Bool
  startsSpace : α → Bool
  startsBackslash : α → Bool
  ctxBefore : α → Option FileData
  ctxAfter : α → Option FileData
  ctxHunkStart : α → Bool
  ctxHunkBefore : α → Option CtxChunkHdr
  ctxHunkAfter : α → Option CtxChunkHdr
  startsBackslashSpace : α → Bool
  ctxBody : α → Bool
  gitBinStart : α → Bool
  dataStart : α → Option (String × Nat)
  b85Line : α → Bool
  blankLine : α → Bool
  startsHash : α → Bool
  ds : Diffstat.M α
  decodeLines : List α → Except Unit γ
  decompressLen : γ → Except PyErr Nat

variable {α γ : Type}

/-- `GitPreamble`: line slice, `BEFORE_AFTER(file1, file2)`, extras. -/
structure GitPre (α : Type) where
  lines : List α
  fileData : String × String
  extras : List (String × String)
  deriving DecidableEq, Repr

/-- `DiffPreamble`: line slice, path pair, and the flags group stored in
`extras`. -/
structure DiffPre (α : Type) where
  lines : List α
  fileData : String × String
  flags : String
  deriving DecidableEq, Repr

/-- `IndexPreamble`: line slice and the path. -/
structure IndexPre (α : Type) where
  lines : List α
  fileData : String
  deriving DecidableEq, Repr

/-- A parsed preamble of any of the three kinds. -/
inductive Preamble (α : Type) where
  | git : GitPre α → Preamble α
  | diff : DiffPre α → Preamble α
  | index : IndexPre α → Preamble α
  deriving DecidableEq, Repr

/-- `preamble_type_id`. -/
def Preamble.typeId : Preamble α → String
  | .git _ => "git"
  | .diff _ => "diff"
  | .index _ => "index"

/-- The stored line slice. -/
def Preamble.plines : Preamble α → List α
  | .git p => p.lines
  | .diff p => p.lines
  | .index p => p.lines

/-- `GitPreamble.get_preamble_at`: match `DIFF_CRE`, then absorb every
following line matching one of the `EXTRAS_CRES` (the `while` loop
advances one line per matching line). -/
def getGitPreambleAt (m : M α γ) (lines : List α) (index : Nat) :
    Except PyErr (Option (GitPre α) × Nat) := do
  let line ← pyGet lines index
  match m.gitDiff line with
  | none => return (none, index)
  | some fd =>
    let extrasLines := (lines.drop (index + 1)).takeWhile (fun l => (m.gitExtra l).isSome)
    let nextIndex := index + 1 + extrasLines.length
    return (some ⟨pySlice lines index nextIndex, fd, extrasLines.filterMap m.gitExtra⟩,
      nextIndex)

/-- `DiffPreamble.get_preamble_at`: reject when the flags group contains
`--git`. -/
def getDiffPreambleAt (m : M α γ) (lines : List α) (index : Nat) :
    Except PyErr (Option (DiffPre α) × Nat) := do
  let line ← pyGet lines index
  match m.diffPre line with
  | none => return (none, index)
  | some g =>
    if g.hasGit then return (none, index)
    else return (some ⟨pySlice lines index (index + 1), (g.file1, g.file2), g.flags⟩, index + 1)

/-- `IndexPreamble.get_preamble_at`: one line, or two when the next line
matches `SEP_RCE`. -/
def getIndexPreambleAt (m : M α γ) (lines : List α) (index : Nat) :
    Except PyErr (Option (IndexPre α) × Nat) := do
  let line ← pyGet lines index
  match m.indexFile line with
  | none => return (none, index)
  | some fp =>
    let nextIndex := match lines.get? (index + 1) with
      | some l2 => if m.indexSep l2 then index + 2 else index + 1
      | none => index + 1
    return (some ⟨pySlice lines index nextIndex, fp⟩, nextIndex)

/-- The `IndexPreamble` attempt of `diff_preamble.get_preamble_at` (the
last subtype in `DIFF_PREAMBLE_TYPES`). -/
def getPreambleAtIdx (m : M α γ) (lines : List α) (index : Nat) (si : Bool) :
    Except PyErr (Option (Preamble α) × Nat) := do
  let (pi, ji) ← if si then pure (none, index) else getIndexPreambleAt m lines index
  match pi with
  | some p => return (some (.index p), ji)
  | none => return (none, index)

/-- The `DiffPreamble` attempt of `diff_preamble.get_preamble_at`,
falling through to the `IndexPreamble` attempt. -/
def getPreambleAtDiff (m : M α γ) (lines : List α) (index : Nat) (sd si : Bool) :
    Except PyErr (Option (Preamble α) × Nat) := do
  let (pd, jd) ← if sd then pure (none, index) else getDiffPreambleAt m lines index
  match pd with
  | some p => return (some (.diff p), jd)
  | none => getPreambleAtIdx m lines index si

/-- `diff_preamble.get_preamble_at`: try the subtypes in the order
`[GitPreamble, DiffPreamble, IndexPreamble]`, skipping excluded ones (a
failed subtype leaves the cursor unchanged). -/
def getPreambleAt (m : M α γ) (lines : List α) (index : Nat)
    (sg sd si : Bool) : Except PyErr (Option (Preamble α) × Nat) := do
  let (pg, jg) ← if sg then pure (none, index) else getGitPreambleAt m lines index
  match pg with
  | some p => return (some (.git p), jg)
  | none => getPreambleAtDiff m lines index sd si

/-- `diff_preamble.get_preambles_at`: accumulate preambles (ordered dict
insertion order; `already_seen` prevents two of one kind). -/
def getPreamblesAt (m : M α γ) (lines : List α) :
    Nat → Nat → List (String × Preamble α) → Bool → Bool → Bool →
    Except PyErr (List (String × Preamble α) × Nat)
  | 0, _, _, _, _, _ => throw .fuel
  | fuel + 1, index, acc, sg, sd, si =>
    if index < lines.length then do
      let (p, j) ← getPreambleAt m lines index sg sd si
      match p with
      | some p =>
        getPreamblesAt m lines fuel j (acc ++ [(p.typeId, p)])
          (sg || match p with | .git _ => true | _ => false)
          (sd || match p with | .diff _ => true | _ => false)
          (si || match p with | .index _ => true | _ => false)
      | none => return (acc, index)
    else return (acc, index)

/-- `_CHUNK(start, length)` of the unified parser. -/
structure Chunk2 where
  start : Nat
  length : Nat
  deriving DecidableEq, Repr

/-- `UnifiedDiffHunk`: line slice plus before/after `_CHUNK`s. -/
structure UniHunk (α : Type) where
  lines : List α
  before : Chunk2
  after : Chunk2
  deriving DecidableEq, Repr

/-- The quota-counting loop of `UnifiedDiff.get_hunk_at`
(`while before_count < before_length or after_count < after_length`);
`IndexError` on `lines[index]` is the `try` body's signal turned into
`ParseError("Unexpected end of patch text.")`. -/
def uniBodyLoop (m : M α γ) (lines : List α) (bl al : Nat) :
    Nat → Nat → Nat → Nat → Except PyErr Nat
  | 0, _, _, _ => throw .fuel
  | fuel + 1, index, bc, ac =>
    if bc < bl ∨ ac < al then
      match lines.get? index with
      | none => throw (.parseErr "Unexpected end of patch text.")
      | some l =>
        if m.startsDash l then uniBodyLoop m lines bl al fuel (index + 1) (bc + 1) ac
        else if m.startsPlus l then uniBodyLoop m lines bl al fuel (index + 1) bc (ac + 1)
        else if m.startsSpace l then uniBodyLoop m lines bl al fuel (index + 1) (bc + 1) (ac + 1)
        else if !(m.startsBackslash l) then
          throw (.parseErr "Unexpected end of unified diff hunk.")
        else uniBodyLoop m lines bl al fuel (index + 1) bc ac
    else return index

/-- `UnifiedDiff.get_hunk_at`: hunk header groups, body quota loop, then
absorb a trailing `\`-marker line. -/
def uniGetHunkAt (m : M α γ) (lines : List α) (index : Nat) :
    Except PyErr (Option (UniHunk α) × Nat) := do
  let line ← pyGet lines index
  match m.uniHunk line with
  | none => return (none, index)
  | some g =>
    let startIndex := index
    let beforeLength := g.g3.getD 1
    let afterLength := g.g6.getD 1
    let index ← uniBodyLoop m lines beforeLength afterLength (lines.length + 1) (index + 1) 0 0
    let index := match lines.get? index with
      | some l => if m.startsBackslash l then index + 1 else index
      | none => index
    return (some ⟨pySlice lines startIndex index, ⟨g.g1, beforeLength⟩, ⟨g.g4, afterLength⟩⟩,
      index)

/-- `Diff._get_file_data_at`. -/
def getFileDataAt (cre : α → Option FileData) (lines : List α) (index : Nat) :
    Except PyErr (Option FileData × Nat) := do
  let line ← pyGet lines index
  match cre line with
  | none => return (none, index)
  | some fd => return (some fd, index + 1)

/-- The hunk-collecting loop of `Diff.get_diff_at`
(`while index < len(lines): hunk, index = get_hunk_at(...)`). -/
def hunkLoop (getHunk : List α → Nat → Except PyErr (Option χ × Nat)) (lines : List α) :
    Nat → Nat → List χ → Except PyErr (List χ × Nat)
  | 0, _, _ => throw .fuel
  | fuel + 1, index, acc =>
    if index < lines.length then do
      let (h, j) ← getHunk lines index
      match h with
      | none => return (acc, index)
      | some h => hunkLoop getHunk lines fuel j (acc ++ [h])
    else return (acc, index)

/-- A text diff of either dialect: the two stored header lines, the file
data pair, and the hunks. -/
structure TextDiffD (α χ : Type) where
  headerLines : List α
  fileData : FileData × FileData
  hunks : List χ
  deriving DecidableEq, Repr

/-- `Diff.get_diff_at` (shared by the unified and context parsers): two
file-data lines, then one-or-more hunks; header slice
`lines[start:start+2]`. -/
def textGetDiffAt (beforeCre afterCre : α → Option FileData)
    (getHunk : List α → Nat → Except PyErr (Option χ × Nat))
    (lines : List α) (startIndex : Nat) (raiseIf : Bool) :
    Except PyErr (Option (TextDiffD α χ) × Nat) := do
  if lines.length - startIndex < 2 then return (none, startIndex)
  let (bfd, i1) ← getFileDataAt beforeCre lines startIndex
  match bfd with
  | none => return (none, startIndex)
  | some bfd =>
    let (afd, i2) ← getFileDataAt afterCre lines i1
    match afd with
    | none =>
      if raiseIf then throw (.parseErr "Missing unified diff after file data.")
      else return (none, startIndex)
    | some afd => do
      let (hunks, j) ← hunkLoop getHunk lines (lines.length + 1) i2 []
      if hunks.isEmpty then
        if raiseIf then throw (.parseErr "Expected unified diff hunks not found.")
        else return (none, startIndex)
      else
        return (some ⟨pySlice lines startIndex (startIndex + 2), (bfd, afd), hunks⟩, j)

/-- `_HUNK(offset, start, length, numlines)` of the context parser
(`length` is a Python int and may be negative: `finish - start + 1`). -/
structure CtxH where
  offset : Nat
  start : Nat
  length : Int
  numlines : Nat
  deriving DecidableEq, Repr

/-- `ContextDiffHunk`. -/
structure CtxHunk (α : Type) where
  lines : List α
  before : CtxH
  after : CtxH
  deriving DecidableEq, Repr

/-- `ContextDiff._chunk`. -/
structure CtxChunk where
  start : Nat
  length : Int
  deriving DecidableEq, Repr

/-- Build a `_CHUNK` from the header groups: missing `finish` means
`finish = start`; `0,0` means length 0. -/
def ctxChunkOf (g : CtxChunkHdr) : CtxChunk :=
  let start := g.g1
  let finish := g.g3.getD g.g1
  if start = 0 ∧ finish = 0 then ⟨start, 0⟩
  else ⟨start, (finish : Int) - start + 1⟩

/-- `ContextDiff._get_before_chunk_at`. -/
def ctxGetBeforeChunkAt (m : M α γ) (lines : List α) (index : Nat) :
    Except PyErr (Option CtxChunk × Nat) := do
  let line ← pyGet lines index
  match m.ctxHunkBefore line with
  | none => return (none, index)
  | some g => return (some (ctxChunkOf g), index + 1)

/-- `ContextDiff._get_after_chunk_at`. -/
def ctxGetAfterChunkAt (m : M α γ) (lines : List α) (index : Nat) :
    Except PyErr (Option CtxChunk × Nat) := do
  let line ← pyGet lines index
  match m.ctxHunkAfter line with
  | none => return (none, index)
  | some g => return (some (ctxChunkOf g), index + 1)

/-- Map the `IndexError` of a `try` body to
`ParseError("Unexpected end of patch text.")`. -/
def tryCtx (x : Except PyErr β) : Except PyErr β :=
  match x with
  | .error .indexErr => .error (.parseErr "Unexpected end of patch text.")
  | other => other

/-- The before-block scan of `ContextDiff.get_hunk_at`
(`while before_count < before_chunk.length`): returns the after chunk if
one was found (with its start), else the final index and count. -/
def ctxLoop1 (m : M α γ) (lines : List α) (blen : Int) :
    Nat → Nat → Nat → Except PyErr (Option CtxChunk × Nat × Nat)
  | 0, _, _ => throw .fuel
  | fuel + 1, index, bcount =>
    if (bcount : Int) < blen then do
      let asi := index
      let (ac, index') ← ctxGetAfterChunkAt m lines index
      match ac with
      | some ac => return (some ac, asi, index')
      | none => ctxLoop1 m lines blen fuel (index + 1) (bcount + 1)
    else return (none, index, index)

/-- The after-block scan of `ContextDiff.get_hunk_at`
(`while after_count < after_chunk.length`; a non-body line with
`after_count == 0` breaks, otherwise it is a parse error). -/
def ctxLoop2 (m : M α γ) (lines : List α) (alen : Int) :
    Nat → Nat → Nat → Except PyErr Nat
  | 0, _, _ => throw .fuel
  | fuel + 1, index, acount =>
    if (acount : Int) < alen then do
      let line ← pyGet lines index
      if !(m.ctxBody line) then
        if acount = 0 then return index
        else throw (.parseErr "Unexpected end of context diff hunk.")
      else ctxLoop2 m lines alen fuel (index + 1) (acount + 1)
    else return index

/-- The after-chunk search of `ContextDiff.get_hunk_at` when the before
scan finished without a break (the `after_chunk is None` branch). -/
def ctxFindAfter (m : M α γ) (lines : List α) (idx0 : Nat) :
    Except PyErr (CtxChunk × Nat × Nat) := do
  let line ← pyGet lines idx0
  let idx1 := if m.startsBackslashSpace line then idx0 + 1 else idx0
  let (ac2, idx2) ← ctxGetAfterChunkAt m lines idx1
  match ac2 with
  | none => throw (.parseErr "Failed to find context diff after hunk.")
  | some ac2 => pure (ac2, idx1, idx2)

/-- The `try` body of `ContextDiff.get_hunk_at`: before scan, after-chunk
recovery, after scan, then the trailing `\ `-line absorb; returns
`(after_chunk, after_start_index, index)`. -/
def ctxTryBody (m : M α γ) (lines : List α) (index1 : Nat) (blen : Int) :
    Except PyErr (CtxChunk × Nat × Nat) := do
  let (ac, asi0, idx0) ← ctxLoop1 m lines blen (lines.length + 1) index1 0
  let (achunk, asi, idx) ←
    match ac with
    | some ac => pure (ac, asi0, idx0)
    | none => ctxFindAfter m lines idx0
  let idxL2 ← ctxLoop2 m lines achunk.length (lines.length + 1) idx 0
  let idxF := match lines.get? idxL2 with
    | some l => if m.startsBackslashSpace l then idxL2 + 1 else idxL2
    | none => idxL2
  pure (achunk, asi, idxF)

/-- `ContextDiff.get_hunk_at`. -/
def ctxGetHunkAt (m : M α γ) (lines : List α) (index : Nat) :
    Except PyErr (Option (CtxHunk α) × Nat) := do
  let line ← pyGet lines index
  if !(m.ctxHunkStart line) then return (none, index)
  let startIndex := index
  let beforeStartIndex := index + 1
  -- the before-chunk match is outside the try block: IndexError propagates
  let (bc, index1) ← ctxGetBeforeChunkAt m lines beforeStartIndex
  match bc with
  | none => return (none, index1)
  | some bchunk => do
    let r ← tryCtx (ctxTryBody m lines index1 bchunk.length)
    let (achunk, afterStartIndex, idxF) := r
    let beforeHunk : CtxH :=
      ⟨beforeStartIndex - startIndex, bchunk.start, bchunk.length,
        afterStartIndex - beforeStartIndex⟩
    let afterHunk : CtxH :=
      ⟨afterStartIndex - startIndex, achunk.start, achunk.length, idxF - afterStartIndex⟩
    return (some ⟨pySlice lines startIndex idxF, beforeHunk, afterHunk⟩, idxF)

/-- `GitBinaryDiffData`. -/
structure GitBinData (α γ : Type) where
  lines : List α
  method : String
  sizeRaw : Nat
  dataZipped : γ
  deriving DecidableEq, Repr

/-- `GitBinaryDiff`. -/
structure GitBinD (α γ : Type) where
  lines : List α
  forward : Option (GitBinData α γ)
  reverse : Option (GitBinData α γ)
  deriving DecidableEq, Repr

/-- `GitBinaryDiff.get_data_at` (identical in `diffs.py` and
`git_binary_diff.py`): `literal`/`delta` introducer, base-85 body lines,
an unguarded `lines[index]` blank-line check, then decode and verify the
declared size. -/
def gitBinGetDataAt (m : M α γ) (lines : List α) (startIndex : Nat) :
    Except PyErr (Option (GitBinData α γ) × Nat) := do
  match lines.get? startIndex with
  | none => return (none, startIndex)
  | some l =>
    match m.dataStart l with
    | none => return (none, startIndex)
    | some ms =>
      let endData := (startIndex + 1) + countWhile m.b85Line (lines.drop (startIndex + 1))
      -- absorb the blank line if there is one (`lines[index]`, unguarded)
      let bl ← pyGet lines endData
      let index := if m.blankLine bl then endData + 1 else endData
      let dlines := pySlice lines startIndex index
      let dataZipped ← match m.decodeLines (pySlice lines (startIndex + 1) endData) with
        | .error _ => throw (.dataErr "Inconsistent git binary patch data.")
        | .ok dz => pure dz
      let rawSize ← m.decompressLen dataZipped
      if rawSize ≠ ms.2 then
        throw (.dataErr "Git binary patch size mismatch.")
      return (some ⟨dlines, ms.1, rawSize, dataZipped⟩, index)

/-- `GitBinaryDiff.get_diff_at`. -/
def gitBinGetDiffAt (m : M α γ) (lines : List α) (startIndex : Nat) (raiseIf : Bool) :
    Except PyErr (Option (GitBinD α γ) × Nat) := do
  let line ← pyGet lines startIndex
  if !(m.gitBinStart line) then return (none, startIndex)
  let (forward, index) ← gitBinGetDataAt m lines (startIndex + 1)
  if forward.isNone && raiseIf then
    throw (.parseErr "No content in GIT binary patch text.")
  let (reverse, index') ← gitBinGetDataAt m lines index
  return (some ⟨pySlice lines startIndex index', forward, reverse⟩, index')

/-- A parsed diff of any of the three dialects. -/
inductive Diff (α γ : Type) where
  | unified : TextDiffD α (UniHunk α) → Diff α γ
  | context : TextDiffD α (CtxHunk α) → Diff α γ
  | gitBinary : GitBinD α γ → Diff α γ
  deriving DecidableEq, Repr

/-- `diffs.get_diff_at`: try `[UnifiedDiff, GitBinaryDiff, ContextDiff]`
in that order. -/
def getDiffAt (m : M α γ) (lines : List α) (index : Nat) (raiseIf : Bool) :
    Except PyErr (Option (Diff α γ) × Nat) := do
  let (du, j) ← textGetDiffAt m.uniBefore m.uniAfter (uniGetHunkAt m) lines index raiseIf
  match du with
  | some d => return (some (.unified d), j)
  | none => do
    let (dg, j) ← gitBinGetDiffAt m lines index raiseIf
    match dg with
    | some d => return (some (.gitBinary d), j)
    | none => do
      let (dc, j) ← textGetDiffAt m.ctxBefore m.ctxAfter (ctxGetHunkAt m) lines index raiseIf
      match dc with
      | some d => return (some (.context d), j)
      | none => return (none, index)

/-- `patches.DiffPlus`. -/
structure DiffPlus (α γ : Type) where
  preambles : List (String × Preamble α)
  diff : Option (Diff α γ)
  trailingJunk : List α
  deriving DecidableEq, Repr

/-- `DiffPlus.get_diff_plus_at`. -/
def getDiffPlusAt (m : M α γ) (lines : List α) (startIndex : Nat) (raiseIf : Bool) :
    Except PyErr (Option (DiffPlus α γ) × Nat) := do
  let (preambles, index) ← getPreamblesAt m lines (lines.length + 1) startIndex [] false false false
  if index ≥ lines.length then
    if preambles.isEmpty then return (none, startIndex)
    else return (some ⟨preambles, none, []⟩, index)
  else do
    let (diffData, index') ← getDiffAt m lines index raiseIf
    match diffData with
    | none =>
      if preambles.isEmpty then return (none, startIndex)
      else return (some ⟨preambles, none, []⟩, index')
    | some d => return (some ⟨preambles, some d, []⟩, index')

/-- `patches.Header` split into its three contiguous segments.  (In the
source `set_header` receives `"".join(lines[...])` and `Header.__init__`
re-splits it with `splitlines(True)`, the identity round trip on a proper
line list; the embedding passes the line list directly.) -/
structure Header (α : Type) where
  commentLines : List α
  descriptionLines : List α
  diffstatLines : List α
  deriving DecidableEq, Repr

/-- The `while index < len(lines)` scan of `Header.__init__` for the first
line where a diffstat summary starts. -/
def findSummaryFrom (m : M α γ) (lines : List α) :
    Nat → Nat → Except PyErr (Option Nat)
  | 0, _ => throw .fuel
  | fuel + 1, index =>
    if index < lines.length then do
      let b ← Diffstat.listSummaryStartsAt m.ds lines index
      if b then return (some index) else findSummaryFrom m lines fuel (index + 1)
    else return none

/-- `Header.__init__`: leading `#` lines are comments, then description up
to a detected diffstat summary, then the diffstat lines. -/
def headerOfLines (m : M α γ) (lines : List α) : Except PyErr (Header α) := do
  let descrStartsAt := countWhile m.startsHash lines
  let dsStart ← findSummaryFrom m lines (lines.length + 1) descrStartsAt
  match dsStart with
  | some d =>
    return ⟨lines.take descrStartsAt, pySlice lines descrStartsAt d, lines.drop d⟩
  | none => return ⟨lines.take descrStartsAt, lines.drop descrStartsAt, []⟩

/-- `patches.Patch` (header and diff-pluses; `num_strip_levels` and
`source_name` play no part in parsing or serialisation). -/
structure Patch (α γ : Type) where
  header : Header α
  diffPluses : List (DiffPlus α γ)
  deriving DecidableEq, Repr

/-- `last_diff_plus.trailing_junk.append(lines[index])`: append one junk
line to the last diff-plus. -/
def appendJunk : List (DiffPlus α γ) → α → List (DiffPlus α γ)
  | [], _ => []
  | [dp], line => [{ dp with trailingJunk := dp.trailingJunk ++ [line] }]
  | dp :: rest, line => dp :: appendJunk rest line

/-- The scanning loop of `Patch.parse_lines`. -/
def parsePatchLoop (m : M α γ) (lines : List α) :
    Nat → Nat → Option Nat → List (DiffPlus α γ) → Except PyErr (Patch α γ)
  | 0, _, _, _ => throw .fuel
  | fuel + 1, index, diffStartsAt, dps =>
    if index < lines.length then do
      let raiseIf := diffStartsAt.isSome
      let startsAt := index
      let (dp, index') ← getDiffPlusAt m lines index raiseIf
      match dp with
      | some dp =>
        parsePatchLoop m lines fuel index'
          (match diffStartsAt with | some d => some d | none => some startsAt)
          (dps ++ [dp])
      | none => do
        let line ← pyGet lines index
        let dps' := if dps.isEmpty then dps else appendJunk dps line
        parsePatchLoop m lines fuel (index + 1) diffStartsAt dps'
    else do
      let headerLines := match diffStartsAt with
        | some d => lines.take d
        | none => lines
      let header ← headerOfLines m headerLines
      return ⟨header, dps⟩

/-- `Patch.parse_lines`. -/
def parsePatchLines (m : M α γ) (lines : List α) : Except PyErr (Patch α γ) :=
  parsePatchLoop m lines (lines.length + 1) 0 none []

/-- `Preambles.iter_lines`: the lines of every preamble in insertion
order. -/
def preamblesToLines (ps : List (String × Preamble α)) : List α :=
  (ps.map (fun e => e.2.plines)).flatten

/-- `str(TextDiff)`: header lines then each hunk's lines. -/
def uniDiffToLines (d : TextDiffD α (UniHunk α)) : List α :=
  d.headerLines ++ (d.hunks.map (fun h => h.lines)).flatten

/-- `str(ContextDiff)`. -/
def ctxDiffToLines (d : TextDiffD α (CtxHunk α)) : List α :=
  d.headerLines ++ (d.hunks.map (fun h => h.lines)).flatten

/-- `str(Diff)` for each dialect. -/
def Diff.toLines : Diff α γ → List α
  | .unified d => uniDiffToLines d
  | .context d => ctxDiffToLines d
  | .gitBinary g => g.lines

/-- `str(DiffPlus)`: preambles, diff (when present), trailing junk. -/
def DiffPlus.toLines (dp : DiffPlus α γ) : List α :=
  preamblesToLines dp.preambles ++ (match dp.diff with
    | some d => d.toLines
    | none => []) ++ dp.trailingJunk

/-- `str(Header)`: comments, description, diffstat. -/
def Header.toLines (h : Header α) : List α :=
  h.commentLines ++ h.descriptionLines ++ h.diffstatLines

/-- `str(Patch)`: header then every diff-plus. -/
def Patch.toLines (p : Patch α γ) : List α :=
  p.header.toLines ++ (p.diffPluses.map DiffPlus.toLines).flatten

/-- A concrete matcher family for evaluating the parser on example input:
string-equality classifiers that agree with the corresponding regular
expressions on the lines of `exampleLines`, a trivially successful base-85
decoder and a decompressor reporting the advertised size. -/
def exampleMatcher : M String Unit where
  gitDiff := fun _ => none
  gitExtra := fun _ => none
  diffPre := fun _ => none
  indexFile := fun l => if l = "Index: f\n" then some "f" else none
  indexSep := fun l => l = "===\n"
  uniBefore := fun l => if l = "--- f\n" then some ⟨"f", none⟩ else none
  uniAfter := fun l => if l = "+++ f\n" then some ⟨"f", none⟩ else none
  uniHunk := fun l => if l = "@@ -1,4 +1,5 @@\n" then some ⟨1, some 4, 1, some 5⟩ else none
  startsDash := fun l => decide (l.data.head? = some (Char.ofNat 45))
  startsPlus := fun l => decide (l.data.head? = some (Char.ofNat 43))
  startsSpace := fun l => decide (l.data.head? = some (Char.ofNat 32))
  startsBackslash := fun l => decide (l.data.head? = some (Char.ofNat 92))
  ctxBefore := fun _ => none
  ctxAfter := fun _ => none
  ctxHunkStart := fun _ => false
  ctxHunkBefore := fun _ => none
  ctxHunkAfter := fun _ => none
  startsBackslashSpace := fun l => decide (l.data.take 2 = [Char.ofNat 92, Char.ofNat 32])
  ctxBody := fun _ => false
  gitBinStart := fun l => l = "GIT binary patch\n"
  dataStart := fun l => if l = "literal 5\n" then some ("literal", 5) else none
  b85Line := fun l => l = "Tb85data\n"
  blankLine := fun l => l = "\n"
  startsHash := fun l => decide (l.data.head? = some (Char.ofNat 35))
  ds := Diffstat.exampleM
  decodeLines := fun _ => .ok ()
  decompressLen := fun _ => .ok 5

/-- An example patch text: a comment, a description line, an index
preamble with separator, a unified diff with one hunk, a junk line, and a
git binary diff. -/
def exampleLines : List String :=
  ["# comment\n", "descr\n", "Index: f\n", "===\n", "--- f\n", "+++ f\n",
   "@@ -1,4 +1,5 @@\n", " a\n", " b\n", "-c\n", "+C\n", "+C2\n", " d\n", "junk\n",
   "GIT binary patch\n", "literal 5\n", "Tb85data\n", "\n"]

/-- The parse of `exampleLines` (total: falls back to a junk patch on
error, which `exampleLines` does not trigger). -/
def exampleParsedPatch : Patch String Unit :=
  match parsePatchLines exampleMatcher exampleLines with
  | .ok p => p
  | .error _ => ⟨⟨[], [], []⟩, []⟩

/-- `exampleMatcher` with a decompressor whose reported length (7)
disagrees with the size declared on the `literal 5` introducer line. -/
def exampleMatcherBad : M String Unit :=
  { exampleMatcher with decompressLen := fun _ => .ok 7 }

/-- The number of "before"-counted lines in a body segment under the
claim's counting rule: `-` counts toward before only, `+` toward after
only, a space toward both, anything else (`\` or junk) toward neither,
with the same classification precedence as the loop. -/
def scanBefore (m : M α γ) : List α → Nat
  | [] => 0
  | x :: xs =>
    (if m.startsDash x then 1
     else if m.startsPlus x then 0
     else if m.startsSpace x then 1
     else 0) + scanBefore m xs

/-- The number of "after"-counted lines in a body segment (see
`scanBefore`). -/
def scanAfter (m : M α γ) : List α → Nat
  | [] => 0
  | x :: xs =>
    (if m.startsDash x then 0
     else if m.startsPlus x then 1
     else if m.startsSpace x then 1
     else 0) + scanAfter m xs

/-- `exampleMatcher` extended with a hunk header announcing the lengths
`(0, 1)` (as `@@ -1,0 +1,1 @@` does). -/
def exampleMatcherQ : M String Unit :=
  { exampleMatcher with
      uniHunk := fun l =>
        if l = "@@ -1,0 +1,1 @@\n" then some ⟨1, some 0, 1, some 1⟩ else none }

end Parse



end Pysm

/-! ## Theorems -/

namespace Pysm

theorem pySlice_append (l : List α) {a b c : Nat} (hab : a ≤ b) (hbc : b ≤ c) :
    pySlice l a b ++ pySlice l b c = pySlice l a c := by
  unfold pySlice
  have htk : (l.take c).take b = l.take b := by
    rw [List.take_take, Nat.min_eq_left hbc]
  have hsplit : l.take c = l.take b ++ (l.take c).drop b := by
    conv_lhs => rw [← List.take_append_drop b (l.take c)]
    rw [htk]
  conv_rhs => rw [hsplit]
  rw [List.drop_append_eq_append_drop]
  by_cases h : a ≤ (l.take b).length
  · have : a - (l.take b).length = 0 := Nat.sub_eq_zero_of_le h
    rw [this, List.drop_zero]
  · push_neg at h
    have hlb : (l.take b).length ≤ a := Nat.le_of_lt h
    have h1 : (l.take b).drop a = [] := List.drop_eq_nil_of_le hlb
    have hlen : (l.take b).length = min b l.length := List.length_take b l
    have hla : l.length < a := by
      rcases Nat.lt_or_ge l.length b with hc | hc
      · omega
      · rw [hlen, Nat.min_eq_left] at h
        · omega
        · exact hc
    have h2 : (l.take c).drop b = [] := by
      apply List.drop_eq_nil_of_le
      have := List.length_take c l
      omega
    simp [h1, h2]


namespace ADiff

theorem containsBlock_append_right {block res : List String} (t : List String)
    (h : ContainsBlock block res) : ContainsBlock block (res ++ t) := by
  obtain ⟨s, u, rfl⟩ := h
  exact ⟨s, u ++ t, by simp⟩

theorem foldl_fastStep_ext (lines : List String) (l : List AbstractHunk) (st : ApplyState) :
    ∃ ext, (l.foldl (fastStep lines) st).result = st.result ++ ext ∧
      (l.foldl (fastStep lines) st).events = st.events := by
  induction l generalizing st with
  | nil => exact ⟨[], by simp⟩
  | cons x xs ih =>
    obtain ⟨ext, hr, he⟩ := ih (fastStep lines st x)
    rw [List.foldl_cons]
    refine ⟨(pyIntSlice lines st.linesIndex (x.before.start_index + st.currentOffset)
        ++ x.after.lines) ++ ext, ?_, ?_⟩
    · rw [hr]; simp [fastStep]
    · rw [he]; simp [fastStep]

theorem goodState_of_ext {st st' : ApplyState} (hg : GoodState st)
    (hres : ∃ ext, st'.result = st.result ++ ext) (hev : st'.events = st.events) :
    GoodState st' := by
  intro n w a hmem
  obtain ⟨ext, hext⟩ := hres
  rw [hext]
  exact containsBlock_append_right ext (hg n w a (hev ▸ hmem))

theorem goodState_step {st1 st2 : ApplyState} (hg1 : GoodState st1) (ev : ApplyEvent)
    (hev : st2.events = st1.events ++ [ev])
    (hmono : ∀ b, ContainsBlock b st1.result → ContainsBlock b st2.result)
    (hconf : ∀ n w a, ev = .conflict n w a → ContainsBlock (conflictBlock w a) st2.result) :
    GoodState st2 := by
  intro n w a hmem
  rw [hev] at hmem
  rcases List.mem_append.mp hmem with hmem | hmem
  · exact hmono _ (hg1 n w a hmem)
  · exact hconf n w a (List.mem_singleton.mp hmem).symm

theorem applyStep_good {hunks : List AbstractHunk} {lines : List String}
    {st : ApplyState} {r : ApplyState ⊕ ApplyState} {st' : ApplyState}
    (hg : GoodState st) (h : applyStep hunks lines st = .ok r)
    (hr : r = Sum.inl st' ∨ r = Sum.inr st') : GoodState st' := by
  have hgood : ∀ sl : List AbstractHunk, GoodState (sl.foldl (fastStep lines) st) := by
    intro sl
    obtain ⟨ext, hres, hev⟩ := foldl_fastStep_ext lines sl st
    exact goodState_of_ext hg ⟨ext, hres⟩ hev
  simp only [applyStep] at h
  split at h
  · -- first_mismatch is None: break after the fast path
    rcases hr with rfl | rfl
    · obtain rfl : _ = st' := by simpa using h
      exact hgood _
    · simp at h
  · -- a mismatching hunk
    rename_i k hk
    split at h
    · -- compromised position found: fuzz merge
      rcases hr with rfl | rfl
      · simp at h
      · obtain rfl : _ = st' := by simpa using h
        refine goodState_step (hgood (pySlice hunks st.numHunksDone k)) _ rfl ?_ ?_
        · intro b hb
          exact containsBlock_append_right _ hb
        · intro n w a hx
          exact absurd hx (by simp)
    · -- no compromised position
      split at h
      · -- already applied: the source reads the stale loop variable `hunk`
        split at h
        · simp at h
        · rcases hr with rfl | rfl
          · simp at h
          · obtain rfl : _ = st' := by simpa using h
            refine goodState_step (hgood (pySlice hunks st.numHunksDone k)) _ rfl ?_ ?_
            · intro b hb
              exact containsBlock_append_right _ hb
            · intro n w a hx
              exact absurd hx (by simp)
      · split at h
        · -- ran out of lines to patch: break
          rcases hr with rfl | rfl
          · obtain rfl : _ = st' := by simpa using h
            refine goodState_step (hgood (pySlice hunks st.numHunksDone k)) _ rfl ?_ ?_
            · intro b hb
              exact hb
            · intro n w a hx
              exact absurd hx (by simp)
          · simp at h
        · -- conflict: splice the marker block into the result
          rcases hr with rfl | rfl
          · simp at h
          · obtain rfl : _ = st' := by simpa using h
            refine goodState_step (hgood (pySlice hunks st.numHunksDone k)) _ rfl ?_ ?_
            · intro b hb
              exact containsBlock_append_right _ hb
            · intro n w a hx
              cases hx
              refine ⟨((pySlice hunks st.numHunksDone k).foldl (fastStep lines) st).result
                  ++ pyIntSlice lines
                    ((pySlice hunks st.numHunksDone k).foldl (fastStep lines) st).linesIndex
                    ((hunks.getD k default).before.start_index
                      + ((pySlice hunks st.numHunksDone k).foldl (fastStep lines) st).currentOffset),
                [], ?_⟩
              simp [conflictBlock]

theorem applyLoop_good {hunks : List AbstractHunk} {lines : List String} :
    ∀ (fuel : Nat) (st st' : ApplyState), GoodState st →
      applyLoop hunks lines fuel st = .ok st' → GoodState st'
  | 0, st, st', _, h => by cases h
  | fuel + 1, st, st', hg, h => by
    simp only [applyLoop] at h
    by_cases hc : st.numHunksDone < hunks.length <;> simp only [hc, if_true, if_false] at h
    · rcases hstep : applyStep hunks lines st with e | r <;> rw [hstep] at h
      · cases h
      · rcases r with st1 | st1
        · cases h
          exact applyStep_good hg hstep (Or.inl rfl)
        · exact applyLoop_good fuel st1 st' (applyStep_good hg hstep (Or.inr rfl)) h
    · cases h; exact hg

theorem find?_congr' {α : Type} {p q : α → Bool} :
    ∀ l : List α, (∀ x ∈ l, p x = q x) → l.find? p = l.find? q := by
  intro l
  induction l with
  | nil => intro _; rfl
  | cons x xs ih =>
    intro h
    have hx := h x (by simp)
    simp only [List.find?_cons]
    rw [hx]
    cases q x
    · exact ih (fun y hy => h y (by simp [hy]))
    · rfl

theorem findSome?_congr {α β : Type} {f g : α → Option β} :
    ∀ l : List α, (∀ x ∈ l, f x = g x) → l.findSome? f = l.findSome? g := by
  intro l
  induction l with
  | nil => intro _; rfl
  | cons x xs ih =>
    intro h
    have hx := h x (by simp)
    simp only [List.findSome?_cons]
    rw [hx]
    cases g x
    · exact ih (fun y hy => h y (by simp [hy]))
    · rfl

theorem drop_min_eq {α : Type} (l : List α) (a n : Nat) (h : l.length ≤ n) :
    l.drop (min a n) = l.drop a := by
  rcases le_total a n with hle | hle
  · rw [Nat.min_eq_left hle]
  · rw [Nat.min_eq_right hle]
    rw [List.drop_eq_nil_of_le h, List.drop_eq_nil_of_le (le_trans h hle)]

/-- The slice `before.lines[fm:to]` built by `get_before_compromised_posn`
(with its `if … else None` bounds) is: drop `pre` lines from the head and
`post` lines from the tail. -/
theorem pyNormIdx_ofNat (n a : Nat) : pyNormIdx n (a : Int) = min a n := by
  simp only [pyNormIdx]
  rw [if_neg (by omega)]
  omega

theorem pyNormIdx_negSucc (n b : Nat) (hb : 0 < b) : pyNormIdx n (-(b : Int)) = n - b := by
  simp only [pyNormIdx]
  rw [if_pos (by omega)]
  omega

theorem pyIntSlice_ofNat_neg (l : List String) (a b : Nat) (hb : 0 < b) :
    pyIntSlice l (a : Int) (-(b : Int)) = (l.take (l.length - b)).drop a := by
  simp only [pyIntSlice, pySlice]
  rw [pyNormIdx_ofNat, pyNormIdx_negSucc _ _ hb]
  exact drop_min_eq _ a l.length (by rw [List.length_take]; omega)

theorem pyIntSlice_ofNat_len (l : List String) (a : Nat) :
    pyIntSlice l (a : Int) (l.length : Int) = (l.take l.length).drop a := by
  simp only [pyIntSlice, pySlice]
  rw [pyNormIdx_ofNat, pyNormIdx_ofNat, Nat.min_self]
  exact drop_min_eq _ a l.length (by rw [List.length_take]; omega)

/-- The slice `before.lines[fm:to]` built by `get_before_compromised_posn`
(with its `if … else None` bounds) is: drop `pre` lines from the head and
`post` lines from the tail. -/
theorem sliceFT_eq (l : List String) (pre post : Nat) :
    pySliceFT l (if pre = 0 then none else some (pre : Int))
      (if post = 0 then none else some (-(post : Int)))
      = (l.take (l.length - post)).drop pre := by
  have hfm : ((if pre = 0 then none else some (pre : Int)) : Option Int).getD 0 = (pre : Int) := by
    by_cases hq : pre = 0 <;> simp [hq]
  by_cases hp : post = 0
  · subst hp
    rw [if_pos rfl]
    simp only [pySliceFT, hfm, Option.getD_none]
    rw [pyIntSlice_ofNat_len]
    rw [Nat.sub_zero]
  · rw [if_neg hp]
    simp only [pySliceFT, hfm, Option.getD_some]
    rw [pyIntSlice_ofNat_neg _ _ _ (by omega)]

/-- Where the window fits, the Python slice comparison of
`lines_contains_sub_lines_at` agrees with the plain occurrence test. -/
theorem containsAt_eq_occursAt (lines sub : List String) (m : Nat)
    (h : m + sub.length ≤ lines.length) :
    linesContainsSubLinesAt lines sub (m : Int) = occursAt lines sub m := by
  simp only [linesContainsSubLinesAt, occursAt, pyIntSlice, pySlice]
  have hcast : ((m : Int) + (sub.length : Int)) = (((m + sub.length : Nat)) : Int) := by omega
  rw [hcast, pyNormIdx_ofNat, pyNormIdx_ofNat]
  rw [Nat.min_eq_left (by omega), Nat.min_eq_left (by omega)]
  rw [List.drop_take]
  have h3 : m + sub.length - m = sub.length := by omega
  rw [h3]
  simp [h]

/-- `find_first_sub_lines` computes the claim's "first occurrence at or
after the cursor" (for a non-negative cursor). -/
theorem findFirst_eq_spec (lines sub : List String) (offset : Int) (hoff : 0 ≤ offset) :
    findFirstSubLines lines sub offset
      = (specFirstOccurrence lines sub offset).map (fun i : Nat => (i : Int)) := by
  set n := lines.length with hn
  set s := sub.length with hs
  set o := offset.toNat with ho
  have hoo : (o : Int) = offset := Int.toNat_of_nonneg hoff
  set cnt := (((n : Int) - s + 1) - offset).toNat with hcnt
  have hmap : (fun k : Nat => offset + (k : Int)) = (fun m : Nat => (m : Int)) ∘ (fun k => o + k) := by
    funext k
    simp only [Function.comp_apply]
    omega
  unfold findFirstSubLines specFirstOccurrence
  rw [← hn, ← hs, ← hcnt]
  rw [hmap, ← List.map_map, ← List.range'_eq_map_range]
  rw [List.find?_map]
  rw [List.range_eq_range']
  -- split the spec's scan at the cursor
  have hsplit1 : List.range' 0 (n + 1) =
      List.range' 0 (min o (n + 1)) ++ List.range' (min o (n + 1)) (n + 1 - min o (n + 1)) := by
    have := List.range'_append 0 (min o (n + 1)) (n + 1 - min o (n + 1)) 1
    simp only [Nat.one_mul, Nat.zero_add] at this
    rw [this]
    congr 1
    omega
  rw [hsplit1, List.find?_append]
  have hfirst : (List.range' 0 (min o (n + 1))).find?
      (fun (i : Nat) => decide (offset ≤ (i : Int)) && occursAt lines sub i) = none := by
    rw [List.find?_eq_none]
    intro x hx
    rw [List.mem_range'_1] at hx
    have : (x : Int) < offset := by omega
    simp only [Bool.and_eq_true, decide_eq_true_eq, not_and]
    intro hc
    omega
  rw [hfirst, Option.none_or]
  by_cases hco : o ≤ n
  · have hmin : min o (n + 1) = o := by omega
    rw [hmin]
    have hcle : cnt ≤ n + 1 - o := by omega
    have hsplit2 : List.range' o (n + 1 - o) =
        List.range' o cnt ++ List.range' (o + cnt) (n + 1 - o - cnt) := by
      have := List.range'_append o cnt (n + 1 - o - cnt) 1
      simp only [Nat.one_mul] at this
      rw [this]
      congr 1
      omega
    rw [hsplit2, List.find?_append]
    have hsecond : (List.range' (o + cnt) (n + 1 - o - cnt)).find?
        (fun (i : Nat) => decide (offset ≤ (i : Int)) && occursAt lines sub i) = none := by
      rw [List.find?_eq_none]
      intro x hx
      rw [List.mem_range'_1] at hx
      simp only [Bool.and_eq_true, decide_eq_true_eq, not_and]
      intro _
      unfold occursAt
      simp only [Bool.and_eq_true, decide_eq_true_eq, not_and]
      intro hc
      omega
    rw [hsecond, Option.or_none]
    have hpt : ∀ x ∈ List.range' o cnt,
        ((fun i => linesContainsSubLinesAt lines sub i) ∘ (fun m : Nat => (m : Int))) x
          = (fun (i : Nat) => decide (offset ≤ (i : Int)) && occursAt lines sub i) x := by
      intro x hx
      rw [List.mem_range'_1] at hx
      have hxs : x + s ≤ n := by omega
      simp only [Function.comp_apply]
      rw [containsAt_eq_occursAt lines sub x hxs]
      have : decide (offset ≤ (x : Int)) = true := by
        simp only [decide_eq_true_eq]
        omega
      rw [this, Bool.true_and]
    rw [find?_congr' _ hpt]
  · have hmin : min o (n + 1) = n + 1 := by omega
    have hc0 : cnt = 0 := by omega
    rw [hmin, hc0]
    simp

/-- **C5.** For every abstract hunk, input and (non-negative) read cursor,
`get_before_compromised_posn` (at its `apply_forwards` call, where
`fuzz_factor = 2`) behaves exactly as the claim describes: it tries
context reductions `r` from `0` up to
`min(2, max(pre_context_len, post_context_len))` inclusive in increasing
order, for each `r` takes `pre_redn = min(r, pre_context_len)` and
`post_redn = min(r, post_context_len)`, drops that many lines from the
head and the tail of `before.lines`, searches forward from the cursor for
the first occurrence, and returns the first placement found
(`specFuzzyPlacement` is written from the claim's words). -/
theorem C5_fuzzy_search_follows_claim (h : AbstractHunk) (lines : List String)
    (offset : Int) (hoff : 0 ≤ offset) :
    h.getBeforeCompromisedPosn lines offset 2 = specFuzzyPlacement h lines offset := by
  unfold AbstractHunk.getBeforeCompromisedPosn specFuzzyPlacement
  apply findSome?_congr
  intro r _
  simp only []
  rw [sliceFT_eq, findFirst_eq_spec _ _ _ hoff]
  cases specFirstOccurrence lines
      ((h.before.lines.take (h.before.lines.length - min r h.post_cntxt_len)).drop
        (min r h.pre_cntxt_len)) offset with
  | none => rfl
  | some i => rfl

/-- Witness for C5: the fuzz-merge scenario (input with one extra leading
line, cursor at 0). -/
theorem C5_fuzzy_search_follows_claim_witness :
    (0 : Int) ≤ 0 ∧
    AbstractHunk.getBeforeCompromisedPosn exampleHunkCtx
        ["x\n", "a\n", "b\n", "c\n", "d\n"] 0 2
      = specFuzzyPlacement exampleHunkCtx ["x\n", "a\n", "b\n", "c\n", "d\n"] 0 :=
  ⟨le_refl 0,
    C5_fuzzy_search_follows_claim exampleHunkCtx ["x\n", "a\n", "b\n", "c\n", "d\n"] 0
      (le_refl 0)⟩

end ADiff

/-- **C2.** The claim says that an abstract hunk built from a parsed
text-diff hunk carries `pre_context_len`/`post_context_len` equal to the
shared head/tail lengths of `before.lines`/`after.lines`, derived at
construction.  In the code nothing derives them:
`TextDiffHunk.get_abstract_diff_hunk` (t_diff.py:302) calls the four-field
namedtuple `a_diff.AbstractHunk` with only two arguments, so for every
text-diff hunk the conversion raises `TypeError` instead of producing an
abstract hunk (the derivation helpers `first_inequality_fm_head` and
`first_inequality_fm_tail` exist in `a_diff.py` but are never called). -/
theorem C2_abstract_hunk_construction_raises (h : TDiff.TextDiffHunk) :
    TDiff.TextDiffHunk.getAbstractDiffHunk h =
      .error (.typeErr "AbstractHunk.__new__ missing pre_cntxt_len and post_cntxt_len") :=
  rfl

/-- **C3.** The claim says that applying a diff to the text `R` produced by
a first successful application returns `ecode ≤ WARNING` with `R`
unchanged, skipping each hunk as already applied.  The code instead
evaluates `len(hunk.after.lines)` in the already-applied branch, where
`hunk` is the fast-path `for`-loop variable: when the very first hunk is
the one detected as already applied, that variable was never bound and the
call raises `UnboundLocalError` instead of returning.  This theorem
evaluates the embedded `apply_forwards` on the one-hunk diff
`a → b` applied to its own result `["b\n"]`: the hunk is detected as
already applied (`after.lines` found at
`(before.start_index - after.start_index) + current_offset = 0`) and the
run aborts with the unbound-local error. -/
theorem C3_already_applied_crashes :
    ADiff.applyForwards [ADiff.exampleHunkAB] ["b\n"] =
      .error (.unboundLocal "hunk") ∧
    ADiff.AbstractHunk.isAlreadyAppliedForward ADiff.exampleHunkAB ["b\n"] 0 = true := by
  constructor <;> rfl

/-- **C4.** Whenever `apply_forwards` returns (so: does not crash on the
stale `hunk` variable) with `ecode = ERROR`, then for every hunk that went
through the conflict branch — it mismatched, had no fuzzy placement, was
not already applied, and did not run past end-of-file; precisely the hunks
with a `conflict` event — the output contains a block made of the
seven-character marker lines `"<<<<<<<\n"`, `"=======\n"`, `">>>>>>>\n"`
(each followed by a single newline) around the original before-window
lines minus post-context (`w`) and the hunk's after lines minus
post-context (`a`), exactly as recorded in the event. -/
theorem C4_conflict_completeness
    (hunks : List ADiff.AbstractHunk) (lines : List String)
    (ec : ADiff.ECode) (res : List String) (evs : List ADiff.ApplyEvent)
    (h : ADiff.applyForwards hunks lines = .ok (ec, res, evs))
    (herr : ec = ADiff.ECode.ERROR)
    (n : Nat) (w a : List String) (hev : ADiff.ApplyEvent.conflict n w a ∈ evs) :
    ∃ s t, res =
      s ++ (["<<<<<<<\n"] ++ w ++ ["=======\n"] ++ a ++ [">>>>>>>\n"]) ++ t := by
  unfold ADiff.applyForwards at h
  rcases hloop : ADiff.applyLoop hunks lines (hunks.length + 1)
      { result := [], linesIndex := 0, ecode := .OK, numHunksDone := 0,
        currentOffset := 0, hunkVar := none, events := [] } with e | st <;>
    rw [hloop] at h
  · cases h
  · have hg0 : ADiff.GoodState
        { result := [], linesIndex := 0, ecode := .OK, numHunksDone := 0,
          currentOffset := 0, hunkVar := none, events := [] } := by
      intro n w a hmem
      cases hmem
    have hg := ADiff.applyLoop_good _ _ _ hg0 hloop
    obtain ⟨rfl, rfl, rfl⟩ : ec = st.ecode ∧
        res = st.result ++ pyIntDrop lines st.linesIndex ∧ evs = st.events := by
      cases h
      exact ⟨rfl, rfl, rfl⟩
    obtain ⟨s, t, hst⟩ := hg n w a hev
    exact ⟨s, t ++ pyIntDrop lines st.linesIndex, by
      rw [hst]
      simp [ADiff.conflictBlock]⟩

/-- Witness for C4: the spec's conflict scenario (input `a b Z d`). -/
theorem C4_conflict_completeness_witness :
    ∃ s t,
      (["<<<<<<<\n", "a\n", "b\n", "Z\n", "=======\n", "a\n", "b\n", "C\n", "C2\n",
        ">>>>>>>\n", "d\n"] : List String) =
      s ++ (["<<<<<<<\n"] ++ ["a\n", "b\n", "Z\n"] ++ ["=======\n"]
        ++ ["a\n", "b\n", "C\n", "C2\n"] ++ [">>>>>>>\n"]) ++ t :=
  C4_conflict_completeness [ADiff.exampleHunkCtx] ["a\n", "b\n", "Z\n", "d\n"]
    ADiff.ECode.ERROR
    ["<<<<<<<\n", "a\n", "b\n", "Z\n", "=======\n", "a\n", "b\n", "C\n", "C2\n",
      ">>>>>>>\n", "d\n"]
    [ADiff.ApplyEvent.conflict 1 ["a\n", "b\n", "Z\n"] ["a\n", "b\n", "C\n", "C2\n"]]
    (by rfl) rfl 1 ["a\n", "b\n", "Z\n"] ["a\n", "b\n", "C\n", "C2\n"]
    (by simp)


namespace DiffPreamble

theorem getFilePathLoop_skip {ps : Preambles} {level : Nat} {tid : String}
    (rest : List String) (hsk : SkipsKind ps level tid) :
    getFilePathLoop ps level (tid :: rest) = getFilePathLoop ps level rest := by
  rcases hsk with h | ⟨p, hp, hpath⟩
  · simp [getFilePathLoop, h]
  · rcases hpath with hpath | hpath <;>
      simp [getFilePathLoop, hp, hpath, Bind.bind, Except.bind]

theorem getFilePathLoop_yield {ps : Preambles} {level : Nat} {tid : String} {p : Preamble}
    {s : String} (rest : List String) (hp : List.lookup tid ps = some p)
    (hpath : p.getFilePath level = .ok (some s)) (hs : s ≠ "") :
    getFilePathLoop ps level (tid :: rest) = .ok (some s) := by
  simp [getFilePathLoop, hp, hpath, hs, Bind.bind, Except.bind]

/-- **C7.** `Preambles.get_file_path` consults the preamble kinds in the
fixed order `index`, `git`, `diff` and returns the first non-empty path:
when the set contains both an `Index` and a `Git` preamble and the Index
path strips to a non-empty path, the Index path is returned regardless of
the Git entry; when a kind contributes no path (absent, `None`, or empty)
lookup falls through to the next kind, and `None` results when no kind
contributes. -/
theorem C7_path_precedence (ps : Preambles) (level : Nat) :
    (∀ pIdx s, List.lookup "index" ps = some pIdx →
      pIdx.getFilePath level = .ok (some s) → s ≠ "" →
      Preambles.getFilePath ps level = .ok (some s)) ∧
    (∀ pG s, SkipsKind ps level "index" →
      List.lookup "git" ps = some pG →
      pG.getFilePath level = .ok (some s) → s ≠ "" →
      Preambles.getFilePath ps level = .ok (some s)) ∧
    (∀ pD s, SkipsKind ps level "index" → SkipsKind ps level "git" →
      List.lookup "diff" ps = some pD →
      pD.getFilePath level = .ok (some s) → s ≠ "" →
      Preambles.getFilePath ps level = .ok (some s)) ∧
    (SkipsKind ps level "index" → SkipsKind ps level "git" →
      SkipsKind ps level "diff" →
      Preambles.getFilePath ps level = .ok none) := by
  refine ⟨?_, ?_, ?_, ?_⟩
  · intro pIdx s hp hpath hs
    exact getFilePathLoop_yield _ hp hpath hs
  · intro pG s hskI hp hpath hs
    unfold Preambles.getFilePath pathPrecedence
    rw [getFilePathLoop_skip _ hskI]
    exact getFilePathLoop_yield _ hp hpath hs
  · intro pD s hskI hskG hp hpath hs
    unfold Preambles.getFilePath pathPrecedence
    rw [getFilePathLoop_skip _ hskI, getFilePathLoop_skip _ hskG]
    exact getFilePathLoop_yield _ hp hpath hs
  · intro hskI hskG hskD
    unfold Preambles.getFilePath pathPrecedence
    rw [getFilePathLoop_skip _ hskI, getFilePathLoop_skip _ hskG,
      getFilePathLoop_skip _ hskD]
    rfl

/-- Witness for C7: spec scenario 6 — a set holding both an `Index:` and a
`diff --git` preamble for `src/foo.c` reports the Index path at strip
level 0. -/
theorem C7_path_precedence_witness :
    List.lookup "index" examplePreambles = some examplePreambleIdx ∧
    Preamble.getFilePath examplePreambleIdx 0 = .ok (some "src/foo.c") ∧
    Preambles.getFilePath examplePreambles 0 = .ok (some "src/foo.c") :=
  ⟨rfl, rfl,
    (C7_path_precedence examplePreambles 0).1 examplePreambleIdx "src/foo.c"
      rfl rfl (by decide)⟩

end DiffPreamble


/-- **C8.** The claim says the detector returns the number of lines the
summary consumes (optional `---` divider, blank lines, then either the
empty-summary line or per-file stat lines plus the end line), 0 when no
summary is present, and raises the malformed error exactly when per-file
lines lack a following end line.  The code returns `index - start` while
`index` still points *at* the final (empty-summary or end) line, so the
returned count excludes that line; and a summary consisting solely of the
empty-summary line is reported as absent (0).  Evaluations: a
divider + empty-summary pair (2 lines) yields 1; the empty-summary line
alone yields 0; a stat line + end line pair (2 lines) yields 1; a stat
line with no end line raises the malformed-summary error (that part of the
claim holds). -/
theorem C8_summary_length_off_by_one :
    Diffstat.getSummaryLengthStartingAt Diffstat.exampleM
        ["---\n", " 0 files changed\n"] 0 = .ok 1 ∧
    Diffstat.getSummaryLengthStartingAt Diffstat.exampleM
        [" 0 files changed\n"] 0 = .ok 0 ∧
    Diffstat.getSummaryLengthStartingAt Diffstat.exampleM
        [" foo | 2 ++\n", " 1 file changed, 2 insertions(+)\n"] 0 = .ok 1 ∧
    Diffstat.getSummaryLengthStartingAt Diffstat.exampleM
        [" foo | 2 ++\n"] 0 = .error .malformedSummary :=
  ⟨rfl, rfl, rfl, rfl⟩


theorem pySlice_nil (l : List α) (i : Nat) : pySlice l i i = [] := by
  apply List.drop_eq_nil_of_le
  rw [List.length_take]
  omega

theorem pySlice_to_len (l : List α) (d : Nat) : pySlice l d l.length = l.drop d := by
  simp [pySlice]

theorem pySlice_singleton {l : List α} {i : Nat} {x : α} (h : l.get? i = some x) :
    pySlice l i (i + 1) = [x] := by
  have hlt : i < l.length := by
    by_contra hc
    push_neg at hc
    rw [List.get?_eq_none.mpr hc] at h
    cases h
  unfold pySlice
  rw [List.take_succ, show l[i]? = some x from by rw [← List.get?_eq_getElem?]; exact h]
  rw [List.drop_append_eq_append_drop]
  have hlen : (l.take i).length = i := by rw [List.length_take]; omega
  rw [List.drop_eq_nil_of_le (by omega), hlen]
  simp

theorem header_split (l : List α) {c d : Nat} (hcd : c ≤ d) :
    l.take c ++ pySlice l c d ++ l.drop d = l := by
  have h1 : (l.take d).take c = l.take c := by
    rw [List.take_take, Nat.min_eq_left hcd]
  have h2 : l.take c ++ pySlice l c d = l.take d := by
    conv_rhs => rw [← List.take_append_drop c (l.take d), h1]
    rfl
  rw [h2]
  exact List.take_append_drop d l

theorem countWhile_le_length (p : α → Bool) : ∀ l : List α, countWhile p l ≤ l.length
  | [] => Nat.le_refl 0
  | x :: xs => by
    simp only [countWhile, List.length_cons]
    split
    · have := countWhile_le_length p xs
      omega
    · omega

theorem length_takeWhile_le (p : α → Bool) : ∀ l : List α, (l.takeWhile p).length ≤ l.length
  | [] => Nat.le_refl 0
  | x :: xs => by
    cases hp : p x
    · rw [List.takeWhile_cons_of_neg (by simp [hp])]
      simp
    · rw [List.takeWhile_cons_of_pos (by simp [hp])]
      have := length_takeWhile_le p xs
      simp only [List.length_cons]
      omega

theorem getElem?_some_lt {l : List α} {i : Nat} {x : α} (h : l[i]? = some x) : i < l.length := by
  by_contra hc
  push_neg at hc
  rw [List.getElem?_eq_none hc] at h
  cases h

theorem pyGet_ok_lt {l : List α} {i : Nat} {x : α} (h : pyGet l i = .ok x) : i < l.length := by
  unfold pyGet at h
  rw [List.get?_eq_getElem?] at h
  rcases hg : l[i]? with _ | y
  · rw [hg] at h
    cases h
  · exact getElem?_some_lt hg

theorem pySlice_cons {l : List α} {i j : Nat} {x : α} (hx : l[i]? = some x) (hij : i < j) :
    pySlice l i j = x :: pySlice l (i + 1) j := by
  have hlt : i < l.length := getElem?_some_lt hx
  have hlen : i < (l.take j).length := by
    rw [List.length_take]
    omega
  unfold pySlice
  rw [List.drop_eq_getElem_cons hlen]
  congr 1
  rw [List.getElem_take]
  have h2 : l[i]? = some (l.get ⟨i, hlt⟩) := by
    rw [← List.get?_eq_getElem? l i]
    exact List.get?_eq_get hlt
  rw [hx] at h2
  injection h2 with h3
  exact h3.symm

theorem pyGet_oob {l : List α} {i : Nat} (h : l.length ≤ i) :
    pyGet l i = .error .indexErr := by
  unfold pyGet
  rw [List.get?_eq_getElem?, List.getElem?_eq_none h]

theorem pyGet_ok_get {l : List α} {i : Nat} {x : α} (h : pyGet l i = .ok x) :
    l[i]? = some x := by
  unfold pyGet at h
  rw [List.get?_eq_getElem?] at h
  rcases hg : l[i]? with _ | y <;> rw [hg] at h
  · cases h
  · injection h with hxy
    subst hxy
    rfl

namespace Parse

theorem getGitPreambleAt_spans {m : M α γ} {lines : List α} {i : Nat} {p : GitPre α} {j : Nat}
    (h : getGitPreambleAt m lines i = .ok (some p, j)) :
    i < j ∧ j ≤ lines.length ∧ p.lines = pySlice lines i j := by
  rcases heq : lines.get? i with _ | line
  · simp only [getGitPreambleAt, pyGet, heq, Bind.bind, Except.bind] at h
    cases h
  · have hlt : i < lines.length := by
      by_contra hc
      push_neg at hc
      rw [List.get?_eq_none.mpr hc] at heq
      cases heq
    simp only [getGitPreambleAt, pyGet, heq, Bind.bind, Except.bind] at h
    rcases hfd : m.gitDiff line with _ | fd <;> rw [hfd] at h
    · simp [pure, Except.pure] at h
    · simp [pure, Except.pure] at h
      obtain ⟨hp, hj⟩ := h
      subst hp
      have htw := length_takeWhile_le (fun l => (m.gitExtra l).isSome) (lines.drop (i + 1))
      rw [List.length_drop] at htw
      exact ⟨by omega, by omega, hj ▸ rfl⟩

theorem getDiffPreambleAt_spans {m : M α γ} {lines : List α} {i : Nat} {p : DiffPre α} {j : Nat}
    (h : getDiffPreambleAt m lines i = .ok (some p, j)) :
    i < j ∧ j ≤ lines.length ∧ p.lines = pySlice lines i j := by
  rcases heq : lines.get? i with _ | line
  · simp only [getDiffPreambleAt, pyGet, heq, Bind.bind, Except.bind] at h
    cases h
  · have hlt : i < lines.length := by
      by_contra hc
      push_neg at hc
      rw [List.get?_eq_none.mpr hc] at heq
      cases heq
    simp only [getDiffPreambleAt, pyGet, heq, Bind.bind, Except.bind] at h
    rcases hfd : m.diffPre line with _ | g <;> rw [hfd] at h
    · simp [pure, Except.pure] at h
    · by_cases hg : g.hasGit <;> simp only [hg, if_true, if_false] at h
      · simp [pure, Except.pure] at h
      · obtain ⟨hp, hj⟩ : some (⟨_, _, _⟩ : DiffPre α) = some p ∧ i + 1 = j := by
          simpa [pure, Except.pure] using h
        cases hp
        exact ⟨by omega, by omega, hj ▸ rfl⟩

theorem getIndexPreambleAt_spans {m : M α γ} {lines : List α} {i : Nat} {p : IndexPre α} {j : Nat}
    (h : getIndexPreambleAt m lines i = .ok (some p, j)) :
    i < j ∧ j ≤ lines.length ∧ p.lines = pySlice lines i j := by
  rcases heq : lines[i]? with _ | line
  · simp only [getIndexPreambleAt, pyGet, List.get?_eq_getElem?, heq, Bind.bind,
      Except.bind] at h
    cases h
  · have hlt : i < lines.length := getElem?_some_lt heq
    simp only [getIndexPreambleAt, pyGet, List.get?_eq_getElem?, heq, Bind.bind,
      Except.bind] at h
    rcases hfp : m.indexFile line with _ | fp <;> rw [hfp] at h
    · simp [pure, Except.pure] at h
    · simp [pure, Except.pure] at h
      obtain ⟨hp, hj⟩ := h
      subst hp
      have hb : i < j ∧ j ≤ lines.length := by
        split at hj
        · rename_i l2 hg2
          have hlt2 : i + 1 < lines.length := getElem?_some_lt hg2
          split at hj
          · have hj2 : i + 2 = j := hj
            exact ⟨by omega, by omega⟩
          · have hj2 : i + 1 = j := hj
            exact ⟨by omega, by omega⟩
        · have hj2 : i + 1 = j := hj
          exact ⟨by omega, by omega⟩
      exact ⟨hb.1, hb.2, hj ▸ rfl⟩

theorem getPreambleAtIdx_spans {m : M α γ} {lines : List α} {i : Nat} {si : Bool}
    {p : Preamble α} {j : Nat}
    (h : getPreambleAtIdx m lines i si = .ok (some p, j)) :
    i < j ∧ j ≤ lines.length ∧ p.plines = pySlice lines i j := by
  simp only [getPreambleAtIdx, Bind.bind, Except.bind] at h
  by_cases hs : si
  · simp only [hs, if_true] at h
    simp [pure, Except.pure] at h
  · simp only [hs, if_false] at h
    rcases hp : getIndexPreambleAt m lines i with e | ⟨pi, ji⟩ <;> rw [hp] at h
    · cases h
    · rcases pi with _ | pidx
      · simp [pure, Except.pure] at h
      · obtain ⟨rfl, rfl⟩ : Preamble.index pidx = p ∧ ji = j := by
          simpa [pure, Except.pure] using h
        exact getIndexPreambleAt_spans hp

theorem getPreambleAtDiff_spans {m : M α γ} {lines : List α} {i : Nat} {sd si : Bool}
    {p : Preamble α} {j : Nat}
    (h : getPreambleAtDiff m lines i sd si = .ok (some p, j)) :
    i < j ∧ j ≤ lines.length ∧ p.plines = pySlice lines i j := by
  simp only [getPreambleAtDiff, Bind.bind, Except.bind] at h
  by_cases hs : sd
  · simp only [hs, if_true] at h
    simp only [pure, Except.pure] at h
    exact getPreambleAtIdx_spans h
  · simp only [hs, if_false] at h
    rcases hp : getDiffPreambleAt m lines i with e | ⟨pd, jd⟩ <;> rw [hp] at h
    · cases h
    · rcases pd with _ | pdif
      · exact getPreambleAtIdx_spans h
      · obtain ⟨rfl, rfl⟩ : Preamble.diff pdif = p ∧ jd = j := by
          simpa [pure, Except.pure] using h
        exact getDiffPreambleAt_spans hp

theorem getPreambleAt_spans {m : M α γ} {lines : List α} {i : Nat} {sg sd si : Bool}
    {p : Preamble α} {j : Nat}
    (h : getPreambleAt m lines i sg sd si = .ok (some p, j)) :
    i < j ∧ j ≤ lines.length ∧ p.plines = pySlice lines i j := by
  simp only [getPreambleAt, Bind.bind, Except.bind] at h
  by_cases hs : sg
  · simp only [hs, if_true] at h
    simp only [pure, Except.pure] at h
    exact getPreambleAtDiff_spans h
  · simp only [hs, if_false] at h
    rcases hp : getGitPreambleAt m lines i with e | ⟨pg, jg⟩ <;> rw [hp] at h
    · cases h
    · rcases pg with _ | pgit
      · exact getPreambleAtDiff_spans h
      · obtain ⟨rfl, rfl⟩ : Preamble.git pgit = p ∧ jg = j := by
          simpa [pure, Except.pure] using h
        exact getGitPreambleAt_spans hp

theorem getPreamblesAt_spans {m : M α γ} {lines : List α} :
    ∀ (fuel i : Nat) (acc : List (String × Preamble α)) (sg sd si : Bool)
      (res : List (String × Preamble α)) (j : Nat),
      i ≤ lines.length →
      getPreamblesAt m lines fuel i acc sg sd si = .ok (res, j) →
      i ≤ j ∧ j ≤ lines.length ∧
        ∃ news, res = acc ++ news ∧ preamblesToLines news = pySlice lines i j
  | 0, i, acc, sg, sd, si, res, j, _, h => by cases h
  | fuel + 1, i, acc, sg, sd, si, res, j, hle, h => by
    simp only [getPreamblesAt, Bind.bind, Except.bind] at h
    by_cases hc : i < lines.length <;> simp only [hc, if_true, if_false] at h
    · rcases hp : getPreambleAt m lines i sg sd si with e | ⟨po, j1⟩ <;> rw [hp] at h
      · cases h
      · rcases po with _ | p
        · obtain ⟨rfl, rfl⟩ : acc = res ∧ i = j := by
            simpa [pure, Except.pure] using h
          exact ⟨Nat.le_refl i, hle, [], by simp, by simp [preamblesToLines, pySlice_nil]⟩
        · obtain ⟨h1, hlen1, hpl⟩ := getPreambleAt_spans hp
          obtain ⟨hj1, hjlen, news2, hres, hlines⟩ :=
            getPreamblesAt_spans fuel j1 (acc ++ [(p.typeId, p)]) _ _ _ res j hlen1 h
          refine ⟨by omega, hjlen, (p.typeId, p) :: news2, by simpa using hres, ?_⟩
          have hcons : preamblesToLines ((p.typeId, p) :: news2) =
              p.plines ++ preamblesToLines news2 := by
            simp [preamblesToLines]
          rw [hcons, hpl, hlines, pySlice_append lines (Nat.le_of_lt h1) hj1]
    · obtain ⟨rfl, rfl⟩ : acc = res ∧ i = j := by
        simpa [pure, Except.pure] using h
      exact ⟨Nat.le_refl i, hle, [], by simp, by simp [preamblesToLines, pySlice_nil]⟩

theorem uniBodyLoop_bounds {m : M α γ} {lines : List α} {bl al : Nat} :
    ∀ (fuel i bc ac : Nat) {idx : Nat},
      i ≤ lines.length →
      uniBodyLoop m lines bl al fuel i bc ac = .ok idx →
      i ≤ idx ∧ idx ≤ lines.length
  | 0, i, bc, ac, idx, _, h => by cases h
  | fuel + 1, i, bc, ac, idx, hle, h => by
    simp only [uniBodyLoop] at h
    by_cases hq : bc < bl ∨ ac < al <;> simp only [hq, if_true, if_false] at h
    · split at h
      · cases h
      · rename_i l hgl
        have hgl2 : lines[i]? = some l := List.get?_eq_getElem? lines i ▸ hgl
        have hle2 : i + 1 ≤ lines.length := getElem?_some_lt hgl2
        split at h
        · have hrec : i + 1 ≤ idx ∧ idx ≤ lines.length :=
            uniBodyLoop_bounds fuel (i + 1) (bc + 1) ac hle2 h
          omega
        · split at h
          · have hrec : i + 1 ≤ idx ∧ idx ≤ lines.length :=
              uniBodyLoop_bounds fuel (i + 1) bc (ac + 1) hle2 h
            omega
          · split at h
            · have hrec : i + 1 ≤ idx ∧ idx ≤ lines.length :=
                uniBodyLoop_bounds fuel (i + 1) (bc + 1) (ac + 1) hle2 h
              omega
            · split at h
              · cases h
              · have hrec : i + 1 ≤ idx ∧ idx ≤ lines.length :=
                  uniBodyLoop_bounds fuel (i + 1) bc ac hle2 h
                omega
    · cases h
      exact ⟨Nat.le_refl i, hle⟩

theorem uniGetHunkAt_spans {m : M α γ} {lines : List α} {i : Nat} {hk : UniHunk α} {j : Nat}
    (heq : uniGetHunkAt m lines i = .ok (some hk, j)) :
    i < j ∧ j ≤ lines.length ∧ hk.lines = pySlice lines i j := by
  rcases hg : lines[i]? with _ | line
  · simp only [uniGetHunkAt, pyGet, List.get?_eq_getElem?, hg, Bind.bind, Except.bind] at heq
    cases heq
  · have hlt : i < lines.length := getElem?_some_lt hg
    simp only [uniGetHunkAt, pyGet, List.get?_eq_getElem?, hg, Bind.bind, Except.bind] at heq
    split at heq
    · simp [pure, Except.pure] at heq
    · rename_i g hu
      rcases hb : uniBodyLoop m lines (g.g3.getD 1) (g.g6.getD 1) (lines.length + 1)
          (i + 1) 0 0 with e | idx <;> rw [hb] at heq
      · cases heq
      · have hrec : i + 1 ≤ idx ∧ idx ≤ lines.length :=
          uniBodyLoop_bounds (lines.length + 1) (i + 1) 0 0 hlt hb
        simp [pure, Except.pure] at heq
        obtain ⟨hhk, hj⟩ := heq
        subst hhk
        have hb2 : i < j ∧ j ≤ lines.length := by
          split at hj
          · rename_i l hgl
            have hlt2 : idx < lines.length := getElem?_some_lt hgl
            split at hj
            · have hj2 : idx + 1 = j := hj
              omega
            · have hj2 : idx = j := hj
              omega
          · have hj2 : idx = j := hj
            omega
        exact ⟨hb2.1, hb2.2, hj ▸ rfl⟩

theorem getFileDataAt_spans {cre : α → Option FileData} {lines : List α} {i : Nat}
    {fd : FileData} {j : Nat}
    (h : getFileDataAt cre lines i = .ok (some fd, j)) :
    j = i + 1 ∧ i < lines.length := by
  rcases hg : lines[i]? with _ | line
  · simp only [getFileDataAt, pyGet, List.get?_eq_getElem?, hg, Bind.bind, Except.bind] at h
    cases h
  · have hlt : i < lines.length := getElem?_some_lt hg
    simp only [getFileDataAt, pyGet, List.get?_eq_getElem?, hg, Bind.bind, Except.bind] at h
    rcases hc : cre line with _ | fd2 <;> rw [hc] at h
    · simp [pure, Except.pure] at h
    · obtain ⟨-, rfl⟩ : fd2 = fd ∧ i + 1 = j := by simpa [pure, Except.pure] using h
      exact ⟨rfl, hlt⟩

theorem hunkLoop_spans {χ : Type} {getHunk : List α → Nat → Except PyErr (Option χ × Nat)}
    {lines : List α} {toL : χ → List α}
    (hspan : ∀ {i : Nat} {hk : χ} {j : Nat}, getHunk lines i = .ok (some hk, j) →
      i < j ∧ j ≤ lines.length ∧ toL hk = pySlice lines i j) :
    ∀ (fuel i : Nat) (acc : List χ) {res : List χ} {j : Nat},
      i ≤ lines.length →
      hunkLoop getHunk lines fuel i acc = .ok (res, j) →
      i ≤ j ∧ j ≤ lines.length ∧
        ∃ news, res = acc ++ news ∧ (news.map toL).flatten = pySlice lines i j
  | 0, i, acc, res, j, _, h => by cases h
  | fuel + 1, i, acc, res, j, hle, h => by
    simp only [hunkLoop, Bind.bind, Except.bind] at h
    by_cases hc : i < lines.length <;> simp only [hc, if_true, if_false] at h
    · rcases hp : getHunk lines i with e | ⟨ho, j1⟩ <;> rw [hp] at h
      · cases h
      · rcases ho with _ | hk
        · obtain ⟨rfl, rfl⟩ : acc = res ∧ i = j := by simpa [pure, Except.pure] using h
          exact ⟨Nat.le_refl i, hle, [], by simp, by simp [pySlice_nil]⟩
        · obtain ⟨h1, hlen1, hpl⟩ := hspan hp
          obtain ⟨hj1, hjlen, news2, hres, hlines⟩ :=
            hunkLoop_spans hspan fuel j1 (acc ++ [hk]) hlen1 h
          refine ⟨by omega, hjlen, hk :: news2, by simpa using hres, ?_⟩
          simp only [List.map_cons, List.flatten_cons]
          rw [hpl, hlines, pySlice_append lines (Nat.le_of_lt h1) hj1]
    · obtain ⟨rfl, rfl⟩ : acc = res ∧ i = j := by simpa [pure, Except.pure] using h
      exact ⟨Nat.le_refl i, hle, [], by simp, by simp [pySlice_nil]⟩

theorem textGetDiffAt_spans {χ : Type} {beforeCre afterCre : α → Option FileData}
    {getHunk : List α → Nat → Except PyErr (Option χ × Nat)} {lines : List α}
    {toL : χ → List α}
    (hspan : ∀ {i : Nat} {hk : χ} {j : Nat}, getHunk lines i = .ok (some hk, j) →
      i < j ∧ j ≤ lines.length ∧ toL hk = pySlice lines i j)
    {i : Nat} {raiseIf : Bool} {d : TextDiffD α χ} {j : Nat}
    (h : textGetDiffAt beforeCre afterCre getHunk lines i raiseIf = .ok (some d, j)) :
    i < j ∧ j ≤ lines.length ∧
      d.headerLines ++ (d.hunks.map toL).flatten = pySlice lines i j := by
  simp only [textGetDiffAt, Bind.bind, Except.bind] at h
  by_cases hg : lines.length - i < 2 <;> simp only [hg, if_true, if_false] at h
  · simp [pure, Except.pure] at h
  · simp [pure, Except.pure] at h
    rcases h1 : getFileDataAt beforeCre lines i with e | ⟨bo, i1⟩ <;> rw [h1] at h
    · cases h
    · simp [pure, Except.pure] at h
      rcases bo with _ | bfd
      · simp at h
      · obtain ⟨rfl, hilt⟩ := getFileDataAt_spans h1
        simp [pure, Except.pure] at h
        rcases h2 : getFileDataAt afterCre lines (i + 1) with e | ⟨ao, i2⟩ <;> rw [h2] at h
        · cases h
        · simp [pure, Except.pure] at h
          rcases ao with _ | afd
          · simp [pure, Except.pure] at h
            split at h
            · cases h
            · simp at h
          · obtain ⟨rfl, hi1lt⟩ := getFileDataAt_spans h2
            simp [pure, Except.pure] at h
            rcases h3 : hunkLoop getHunk lines (lines.length + 1) (i + 1 + 1) []
              with e | ⟨hks, j3⟩ <;> rw [h3] at h
            · cases h
            · simp [pure, Except.pure] at h
              obtain ⟨hj3, hjlen, news, hres, hlines⟩ :=
                hunkLoop_spans hspan (lines.length + 1) (i + 1 + 1) [] hi1lt h3
              split at h
              · split at h
                · cases h
                · simp at h
              · obtain ⟨hd, hjj⟩ : (⟨pySlice lines i (i + 2), (bfd, afd), hks⟩ :
                    TextDiffD α χ) = d ∧ j3 = j := by simpa using h
                subst hjj
                subst hd
                have hnews : hks = news := by simpa using hres
                have hlines2 : (news.map toL).flatten = pySlice lines (i + 2) j3 := hlines
                refine ⟨by omega, hjlen, ?_⟩
                subst hnews
                dsimp only
                rw [hlines2, pySlice_append lines (by omega) (by omega)]

theorem ctxGetBeforeChunkAt_spans {m : M α γ} {lines : List α} {i : Nat}
    {c : CtxChunk} {j : Nat}
    (h : ctxGetBeforeChunkAt m lines i = .ok (some c, j)) :
    j = i + 1 ∧ i < lines.length := by
  rcases hg : lines[i]? with _ | line
  · simp only [ctxGetBeforeChunkAt, pyGet, List.get?_eq_getElem?, hg, Bind.bind,
      Except.bind] at h
    cases h
  · have hlt : i < lines.length := getElem?_some_lt hg
    simp only [ctxGetBeforeChunkAt, pyGet, List.get?_eq_getElem?, hg, Bind.bind,
      Except.bind] at h
    rcases hc : m.ctxHunkBefore line with _ | g <;> rw [hc] at h
    · simp [pure, Except.pure] at h
    · obtain ⟨-, rfl⟩ : ctxChunkOf g = c ∧ i + 1 = j := by simpa [pure, Except.pure] using h
      exact ⟨rfl, hlt⟩

theorem ctxGetAfterChunkAt_ok {m : M α γ} {lines : List α} {i : Nat}
    {o : Option CtxChunk} {j : Nat}
    (h : ctxGetAfterChunkAt m lines i = .ok (o, j)) :
    i < lines.length ∧ (j = i ∨ j = i + 1) := by
  rcases hg : lines[i]? with _ | line
  · simp only [ctxGetAfterChunkAt, pyGet, List.get?_eq_getElem?, hg, Bind.bind,
      Except.bind] at h
    cases h
  · have hlt : i < lines.length := getElem?_some_lt hg
    simp only [ctxGetAfterChunkAt, pyGet, List.get?_eq_getElem?, hg, Bind.bind,
      Except.bind] at h
    rcases hc : m.ctxHunkAfter line with _ | g <;> rw [hc] at h
    · obtain ⟨-, rfl⟩ : none = o ∧ i = j := by simpa [pure, Except.pure] using h
      exact ⟨hlt, Or.inl rfl⟩
    · obtain ⟨-, rfl⟩ : some (ctxChunkOf g) = o ∧ i + 1 = j := by
        simpa [pure, Except.pure] using h
      exact ⟨hlt, Or.inr rfl⟩

theorem ctxLoop1_bounds {m : M α γ} {lines : List α} {blen : Int} :
    ∀ (fuel i bc : Nat) {ac : Option CtxChunk} {asi idx : Nat},
      i ≤ lines.length →
      ctxLoop1 m lines blen fuel i bc = .ok (ac, asi, idx) →
      i ≤ idx ∧ idx ≤ lines.length
  | 0, i, bc, ac, asi, idx, _, h => by cases h
  | fuel + 1, i, bc, ac, asi, idx, hle, h => by
    simp only [ctxLoop1, Bind.bind, Except.bind] at h
    by_cases hq : (bc : Int) < blen <;> simp only [hq, if_true, if_false] at h
    · rcases ha : ctxGetAfterChunkAt m lines i with e | ⟨aco, i2⟩ <;> rw [ha] at h
      · cases h
      · obtain ⟨hlt, hi2⟩ := ctxGetAfterChunkAt_ok ha
        simp [pure, Except.pure] at h
        rcases aco with _ | ac2
        · have hrec : i + 1 ≤ idx ∧ idx ≤ lines.length :=
            ctxLoop1_bounds fuel (i + 1) (bc + 1) hlt h
          omega
        · obtain ⟨-, -, rfl⟩ : some ac2 = ac ∧ i = asi ∧ i2 = idx := by
            simpa [pure, Except.pure] using h
          omega
    · obtain ⟨-, -, rfl⟩ : none = ac ∧ i = asi ∧ i = idx := by
        simpa [pure, Except.pure] using h
      omega

theorem ctxLoop2_bounds {m : M α γ} {lines : List α} {alen : Int} :
    ∀ (fuel i ac : Nat) {idx : Nat},
      i ≤ lines.length →
      ctxLoop2 m lines alen fuel i ac = .ok idx →
      i ≤ idx ∧ idx ≤ lines.length
  | 0, i, ac, idx, _, h => by cases h
  | fuel + 1, i, ac, idx, hle, h => by
    simp only [ctxLoop2, Bind.bind, Except.bind] at h
    by_cases hq : (ac : Int) < alen <;> simp only [hq, if_true, if_false] at h
    · split at h
      · cases h
      · rename_i l hpg
        have hlt : i < lines.length := pyGet_ok_lt hpg
        split at h
        · split at h
          · cases h
            exact ⟨Nat.le_refl i, by omega⟩
          · cases h
        · have hrec : i + 1 ≤ idx ∧ idx ≤ lines.length :=
            ctxLoop2_bounds fuel (i + 1) (ac + 1) hlt h
          omega
    · cases h
      exact ⟨Nat.le_refl i, hle⟩

theorem ctxFindAfter_bounds {m : M α γ} {lines : List α} {idx0 : Nat}
    {ac : CtxChunk} {asi idx2 : Nat}
    (h : ctxFindAfter m lines idx0 = .ok (ac, asi, idx2)) :
    idx0 ≤ idx2 ∧ idx2 ≤ lines.length := by
  simp only [ctxFindAfter, Bind.bind, Except.bind] at h
  split at h
  · cases h
  · rename_i l hpg
    have hlt : idx0 < lines.length := pyGet_ok_lt hpg
    cases hc : m.startsBackslashSpace l <;> simp [hc] at h
    · rcases ha : ctxGetAfterChunkAt m lines idx0 with e | ⟨aco, i2⟩ <;> rw [ha] at h
      · cases h
      · obtain ⟨hlt2, hi2⟩ := ctxGetAfterChunkAt_ok ha
        simp [pure, Except.pure] at h
        rcases aco with _ | ac2
        · cases h
        · obtain ⟨-, -, rfl⟩ : ac2 = ac ∧ idx0 = asi ∧ i2 = idx2 := by
            simpa [pure, Except.pure] using h
          omega
    · rcases ha : ctxGetAfterChunkAt m lines (idx0 + 1) with e | ⟨aco, i2⟩ <;> rw [ha] at h
      · cases h
      · obtain ⟨hlt2, hi2⟩ := ctxGetAfterChunkAt_ok ha
        simp [pure, Except.pure] at h
        rcases aco with _ | ac2
        · cases h
        · obtain ⟨-, -, rfl⟩ : ac2 = ac ∧ idx0 + 1 = asi ∧ i2 = idx2 := by
            simpa [pure, Except.pure] using h
          omega

theorem tryCtx_ok {β : Type} {x : Except PyErr β} {v : β} (h : tryCtx x = .ok v) :
    x = .ok v := by
  rcases x with e | a
  · cases e <;> simp [tryCtx] at h
  · simpa [tryCtx] using h

theorem ctxTryBody_bounds {m : M α γ} {lines : List α} {i1 : Nat} {blen : Int}
    {achunk : CtxChunk} {asi idxF : Nat}
    (hle : i1 ≤ lines.length)
    (h : ctxTryBody m lines i1 blen = .ok (achunk, asi, idxF)) :
    i1 ≤ idxF ∧ idxF ≤ lines.length := by
  simp only [ctxTryBody, Bind.bind, Except.bind] at h
  rcases h1 : ctxLoop1 m lines blen (lines.length + 1) i1 0
    with e | ⟨aco, asi0, idx0⟩ <;> rw [h1] at h
  · cases h
  · have hb1 : i1 ≤ idx0 ∧ idx0 ≤ lines.length :=
      ctxLoop1_bounds (lines.length + 1) i1 0 hle h1
    simp [pure, Except.pure] at h
    rcases aco with _ | ac
    · simp [pure, Except.pure] at h
      rcases h2 : ctxFindAfter m lines idx0 with e | ⟨ac2, asi2, idx2⟩ <;> rw [h2] at h
      · cases h
      · have hb2 : idx0 ≤ idx2 ∧ idx2 ≤ lines.length := ctxFindAfter_bounds h2
        simp [pure, Except.pure] at h
        rcases h3 : ctxLoop2 m lines ac2.length (lines.length + 1) idx2 0
          with e | idxL2 <;> rw [h3] at h
        · cases h
        · have hb3 : idx2 ≤ idxL2 ∧ idxL2 ≤ lines.length :=
            ctxLoop2_bounds (lines.length + 1) idx2 0 hb2.2 h3
          simp [pure, Except.pure] at h
          obtain ⟨-, -, h6⟩ := h
          have hfb : idxL2 ≤ idxF ∧ idxF ≤ lines.length := by
            split at h6
            · rename_i l hgl
              have hlt2 : idxL2 < lines.length := getElem?_some_lt hgl
              split at h6
              · have h7 : idxL2 + 1 = idxF := h6
                omega
              · have h7 : idxL2 = idxF := h6
                omega
            · have h7 : idxL2 = idxF := h6
              omega
          omega
    · simp [pure, Except.pure] at h
      rcases h3 : ctxLoop2 m lines ac.length (lines.length + 1) idx0 0
        with e | idxL2 <;> rw [h3] at h
      · cases h
      · have hb3 : idx0 ≤ idxL2 ∧ idxL2 ≤ lines.length :=
          ctxLoop2_bounds (lines.length + 1) idx0 0 hb1.2 h3
        simp [pure, Except.pure] at h
        obtain ⟨-, -, h6⟩ := h
        have hfb : idxL2 ≤ idxF ∧ idxF ≤ lines.length := by
          split at h6
          · rename_i l hgl
            have hlt2 : idxL2 < lines.length := getElem?_some_lt hgl
            split at h6
            · have h7 : idxL2 + 1 = idxF := h6
              omega
            · have h7 : idxL2 = idxF := h6
              omega
          · have h7 : idxL2 = idxF := h6
            omega
        omega

theorem ctxGetHunkAt_spans {m : M α γ} {lines : List α} {i : Nat}
    {hk : CtxHunk α} {j : Nat}
    (heq : ctxGetHunkAt m lines i = .ok (some hk, j)) :
    i < j ∧ j ≤ lines.length ∧ hk.lines = pySlice lines i j := by
  rcases hg : lines[i]? with _ | line
  · simp only [ctxGetHunkAt, pyGet, List.get?_eq_getElem?, hg, Bind.bind, Except.bind] at heq
    cases heq
  · have hlt : i < lines.length := getElem?_some_lt hg
    simp only [ctxGetHunkAt, pyGet, List.get?_eq_getElem?, hg, Bind.bind, Except.bind] at heq
    simp [pure, Except.pure] at heq
    split at heq
    · simp at heq
    · rcases hb : ctxGetBeforeChunkAt m lines (i + 1) with e | ⟨bco, i1⟩ <;> rw [hb] at heq
      · cases heq
      · simp [pure, Except.pure] at heq
        rcases bco with _ | bchunk
        · simp at heq
        · obtain ⟨rfl, hi1lt⟩ := ctxGetBeforeChunkAt_spans hb
          simp [pure, Except.pure] at heq
          rcases ht : tryCtx (ctxTryBody m lines (i + 1 + 1) bchunk.length)
            with e | ⟨achunk, asi, idxF⟩ <;> rw [ht] at heq
          · cases heq
          · have hbody := tryCtx_ok ht
            have hbounds : i + 1 + 1 ≤ idxF ∧ idxF ≤ lines.length :=
              ctxTryBody_bounds (by omega) hbody
            simp [pure, Except.pure] at heq
            obtain ⟨hd, hjj⟩ := heq
            subst hjj
            subst hd
            exact ⟨by omega, hbounds.2, rfl⟩

theorem gitBinGetDataAt_ok {m : M α γ} {lines : List α} {i : Nat}
    {o : Option (GitBinData α γ)} {j : Nat}
    (h : gitBinGetDataAt m lines i = .ok (o, j)) :
    i ≤ j ∧ (j = i ∨ j ≤ lines.length) := by
  simp only [gitBinGetDataAt, Bind.bind, Except.bind, List.get?_eq_getElem?] at h
  rcases hg : lines[i]? with _ | l <;> rw [hg] at h
  · obtain ⟨-, rfl⟩ : (none : Option (GitBinData α γ)) = o ∧ i = j := by
      simpa [pure, Except.pure] using h
    exact ⟨Nat.le_refl i, Or.inl rfl⟩
  · simp [pure, Except.pure] at h
    rcases hds : m.dataStart l with _ | ms <;> rw [hds] at h
    · obtain ⟨-, rfl⟩ : (none : Option (GitBinData α γ)) = o ∧ i = j := by
        simpa [pure, Except.pure] using h
      exact ⟨Nat.le_refl i, Or.inl rfl⟩
    · simp [pure, Except.pure] at h
      rcases hbl : pyGet lines ((i + 1) + countWhile m.b85Line (lines.drop (i + 1)))
        with e | bl <;> rw [hbl] at h
      · cases h
      · have hElt : (i + 1) + countWhile m.b85Line (lines.drop (i + 1)) < lines.length :=
          pyGet_ok_lt hbl
        simp [pure, Except.pure] at h
        rcases hdz : m.decodeLines
            (pySlice lines (i + 1) ((i + 1) + countWhile m.b85Line (lines.drop (i + 1))))
          with e | dz <;> rw [hdz] at h
        · cases h
        · simp [pure, Except.pure] at h
          rcases hrs : m.decompressLen dz with e | rs <;> rw [hrs] at h
          · cases h
          · simp [pure, Except.pure] at h
            split at h
            · cases h
              have hgoal : ∀ E : Nat, i + 1 ≤ E → E < lines.length →
                  i ≤ (if m.blankLine bl = true then E + 1 else E) ∧
                  ((if m.blankLine bl = true then E + 1 else E) = i ∨
                    (if m.blankLine bl = true then E + 1 else E) ≤ lines.length) := by
                intro E hE1 hE2
                split <;> omega
              exact hgoal ((i + 1) + countWhile m.b85Line (lines.drop (i + 1)))
                (Nat.le_add_right (i + 1) (countWhile m.b85Line (lines.drop (i + 1)))) hElt
            · cases h

theorem gitBinGetDiffAt_spans {m : M α γ} {lines : List α} {i : Nat}
    {raiseIf : Bool} {d : GitBinD α γ} {j : Nat}
    (h : gitBinGetDiffAt m lines i raiseIf = .ok (some d, j)) :
    i < j ∧ j ≤ lines.length ∧ d.lines = pySlice lines i j := by
  simp only [gitBinGetDiffAt, Bind.bind, Except.bind] at h
  split at h
  · cases h
  · rename_i line hpg
    have hlt : i < lines.length := pyGet_ok_lt hpg
    simp [pure, Except.pure] at h
    split at h
    · simp at h
    · rcases h1 : gitBinGetDataAt m lines (i + 1) with e | ⟨fo, i1⟩ <;> rw [h1] at h
      · cases h
      · have hb1 : i + 1 ≤ i1 ∧ (i1 = i + 1 ∨ i1 ≤ lines.length) := gitBinGetDataAt_ok h1
        have hb1' : i1 ≤ lines.length := by
          rcases hb1.2 with h2 | h2 <;> omega
        simp [pure, Except.pure] at h
        split at h
        · cases h
        · rcases h2 : gitBinGetDataAt m lines i1 with e | ⟨ro, i2⟩ <;> rw [h2] at h
          · cases h
          · have hb2 : i1 ≤ i2 ∧ (i2 = i1 ∨ i2 ≤ lines.length) := gitBinGetDataAt_ok h2
            have hb2' : i2 ≤ lines.length := by
              rcases hb2.2 with h3 | h3 <;> omega
            obtain ⟨hd, hjj⟩ : (⟨pySlice lines i i2, fo, ro⟩ : GitBinD α γ) = d ∧ i2 = j := by
              simpa [pure, Except.pure] using h
            subst hjj
            subst hd
            exact ⟨by omega, hb2', rfl⟩

theorem textGetDiffAt_none {χ : Type} {beforeCre afterCre : α → Option FileData}
    {getHunk : List α → Nat → Except PyErr (Option χ × Nat)} {lines : List α}
    {i : Nat} {raiseIf : Bool} {j : Nat}
    (h : textGetDiffAt beforeCre afterCre getHunk lines i raiseIf =
      .ok ((none : Option (TextDiffD α χ)), j)) : j = i := by
  simp only [textGetDiffAt, Bind.bind, Except.bind] at h
  by_cases hg : lines.length - i < 2 <;> simp only [hg, if_true, if_false] at h
  · have hh : i = j := by simpa [pure, Except.pure] using h
    exact hh.symm
  · simp [pure, Except.pure] at h
    rcases h1 : getFileDataAt beforeCre lines i with e | ⟨bo, i1⟩ <;> rw [h1] at h
    · cases h
    · simp [pure, Except.pure] at h
      rcases bo with _ | bfd
      · have hh : i = j := by simpa using h
        exact hh.symm
      · simp [pure, Except.pure] at h
        rcases h2 : getFileDataAt afterCre lines i1 with e | ⟨ao, i2⟩ <;> rw [h2] at h
        · cases h
        · simp [pure, Except.pure] at h
          rcases ao with _ | afd
          · simp [pure, Except.pure] at h
            split at h
            · cases h
            · have hh : i = j := by simpa using h
              exact hh.symm
          · simp [pure, Except.pure] at h
            rcases h3 : hunkLoop getHunk lines (lines.length + 1) i2 []
              with e | ⟨hks, j3⟩ <;> rw [h3] at h
            · cases h
            · simp [pure, Except.pure] at h
              split at h
              · split at h
                · cases h
                · have hh : i = j := by simpa using h
                  exact hh.symm
              · simp at h

theorem gitBinGetDiffAt_none {m : M α γ} {lines : List α} {i : Nat}
    {raiseIf : Bool} {j : Nat}
    (h : gitBinGetDiffAt m lines i raiseIf = .ok ((none : Option (GitBinD α γ)), j)) :
    j = i := by
  simp only [gitBinGetDiffAt, Bind.bind, Except.bind] at h
  split at h
  · cases h
  · simp [pure, Except.pure] at h
    split at h
    · have hh : i = j := by simpa using h
      exact hh.symm
    · rcases h1 : gitBinGetDataAt m lines (i + 1) with e | ⟨fo, i1⟩ <;> rw [h1] at h
      · cases h
      · simp [pure, Except.pure] at h
        split at h
        · cases h
        · rcases h2 : gitBinGetDataAt m lines i1 with e | ⟨ro, i2⟩ <;> rw [h2] at h
          · cases h
          · simp at h

theorem getDiffAt_spans {m : M α γ} {lines : List α} {i : Nat} {raiseIf : Bool}
    {d : Diff α γ} {j : Nat}
    (h : getDiffAt m lines i raiseIf = .ok (some d, j)) :
    i < j ∧ j ≤ lines.length ∧ d.toLines = pySlice lines i j := by
  simp only [getDiffAt, Bind.bind, Except.bind] at h
  rcases h1 : textGetDiffAt m.uniBefore m.uniAfter (uniGetHunkAt m) lines i raiseIf
    with e | ⟨duo, j1⟩ <;> rw [h1] at h
  · cases h
  · simp [pure, Except.pure] at h
    rcases duo with _ | du
    · simp [pure, Except.pure] at h
      rcases h2 : gitBinGetDiffAt m lines i raiseIf with e | ⟨dgo, j2⟩ <;> rw [h2] at h
      · cases h
      · simp [pure, Except.pure] at h
        rcases dgo with _ | dg
        · simp [pure, Except.pure] at h
          rcases h3 : textGetDiffAt m.ctxBefore m.ctxAfter (ctxGetHunkAt m) lines i raiseIf
            with e | ⟨dco, j3⟩ <;> rw [h3] at h
          · cases h
          · simp [pure, Except.pure] at h
            rcases dco with _ | dc
            · simp [pure, Except.pure] at h
            · obtain ⟨hd, hjj⟩ : Diff.context dc = d ∧ j3 = j := by
                simpa [pure, Except.pure] using h
              subst hjj
              subst hd
              obtain ⟨ha, hb, hc⟩ := textGetDiffAt_spans (fun hh => ctxGetHunkAt_spans hh) h3
              exact ⟨ha, hb, by simpa [Diff.toLines, ctxDiffToLines] using hc⟩
        · obtain ⟨hd, hjj⟩ : Diff.gitBinary dg = d ∧ j2 = j := by
            simpa [pure, Except.pure] using h
          subst hjj
          subst hd
          obtain ⟨ha, hb, hc⟩ := gitBinGetDiffAt_spans h2
          exact ⟨ha, hb, by simpa [Diff.toLines] using hc⟩
    · obtain ⟨hd, hjj⟩ : Diff.unified du = d ∧ j1 = j := by
        simpa [pure, Except.pure] using h
      subst hjj
      subst hd
      obtain ⟨ha, hb, hc⟩ := textGetDiffAt_spans (fun hh => uniGetHunkAt_spans hh) h1
      exact ⟨ha, hb, by simpa [Diff.toLines, uniDiffToLines] using hc⟩

theorem getDiffAt_none {m : M α γ} {lines : List α} {i : Nat} {raiseIf : Bool} {j : Nat}
    (h : getDiffAt m lines i raiseIf = .ok ((none : Option (Diff α γ)), j)) : j = i := by
  simp only [getDiffAt, Bind.bind, Except.bind] at h
  rcases h1 : textGetDiffAt m.uniBefore m.uniAfter (uniGetHunkAt m) lines i raiseIf
    with e | ⟨duo, j1⟩ <;> rw [h1] at h
  · cases h
  · simp [pure, Except.pure] at h
    rcases duo with _ | du
    · simp [pure, Except.pure] at h
      rcases h2 : gitBinGetDiffAt m lines i raiseIf with e | ⟨dgo, j2⟩ <;> rw [h2] at h
      · cases h
      · simp [pure, Except.pure] at h
        rcases dgo with _ | dg
        · simp [pure, Except.pure] at h
          rcases h3 : textGetDiffAt m.ctxBefore m.ctxAfter (ctxGetHunkAt m) lines i raiseIf
            with e | ⟨dco, j3⟩ <;> rw [h3] at h
          · cases h
          · simp [pure, Except.pure] at h
            rcases dco with _ | dc
            · have hh : i = j := by simpa using h
              exact hh.symm
            · simp at h
        · simp at h
    · simp at h

theorem getDiffPlusAt_spans {m : M α γ} {lines : List α} {i : Nat} {raiseIf : Bool}
    {dp : DiffPlus α γ} {j : Nat}
    (hle : i ≤ lines.length)
    (h : getDiffPlusAt m lines i raiseIf = .ok (some dp, j)) :
    i ≤ j ∧ j ≤ lines.length ∧ DiffPlus.toLines dp = pySlice lines i j := by
  simp only [getDiffPlusAt, Bind.bind, Except.bind] at h
  rcases h1 : getPreamblesAt m lines (lines.length + 1) i [] false false false
    with e | ⟨ps, idx⟩ <;> rw [h1] at h
  · cases h
  · obtain ⟨hi1, hi2, news, hps, hplines⟩ :=
      getPreamblesAt_spans (lines.length + 1) i [] false false false ps idx hle h1
    have hpn : ps = news := by simpa using hps
    subst hpn
    simp [pure, Except.pure] at h
    split at h
    · split at h
      · simp at h
      · obtain ⟨hd, hjj⟩ : (⟨ps, none, []⟩ : DiffPlus α γ) = dp ∧ idx = j := by
          simpa using h
        subst hjj
        subst hd
        refine ⟨hi1, hi2, ?_⟩
        simpa [DiffPlus.toLines] using hplines
    · rcases h2 : getDiffAt m lines idx raiseIf with e | ⟨dffo, idx2⟩ <;> rw [h2] at h
      · cases h
      · simp [pure, Except.pure] at h
        rcases dffo with _ | dff
        · simp [pure, Except.pure] at h
          split at h
          · simp at h
          · obtain ⟨hd, hjj⟩ : (⟨ps, none, []⟩ : DiffPlus α γ) = dp ∧ idx2 = j := by
              simpa using h
            subst hjj
            subst hd
            have hidx2 : idx2 = idx := getDiffAt_none h2
            subst hidx2
            refine ⟨hi1, hi2, ?_⟩
            simpa [DiffPlus.toLines] using hplines
        · obtain ⟨hd, hjj⟩ : (⟨ps, some dff, []⟩ : DiffPlus α γ) = dp ∧ idx2 = j := by
            simpa [pure, Except.pure] using h
          subst hjj
          subst hd
          obtain ⟨hda, hdb, hdc⟩ := getDiffAt_spans h2
          refine ⟨by omega, hdb, ?_⟩
          simp only [DiffPlus.toLines, List.append_nil]
          rw [hplines, hdc, pySlice_append lines hi1 (Nat.le_of_lt hda)]

theorem appendJunk_ne_nil {line : α} {dps : List (DiffPlus α γ)} (hne : dps ≠ []) :
    appendJunk dps line ≠ [] := by
  cases dps with
  | nil => exact absurd rfl hne
  | cons a t => cases t <;> simp [appendJunk]

theorem appendJunk_flatten (line : α) :
    ∀ (dps : List (DiffPlus α γ)), dps ≠ [] →
      ((appendJunk dps line).map DiffPlus.toLines).flatten =
        ((dps.map DiffPlus.toLines).flatten) ++ [line]
  | [], hne => absurd rfl hne
  | [a], _ => by
    simp [appendJunk, DiffPlus.toLines, List.append_assoc]
  | a :: b :: t, _ => by
    have ih := appendJunk_flatten line (b :: t) (by simp)
    simp only [appendJunk, List.map_cons, List.flatten_cons, ih]
    simp [List.append_assoc]

theorem findSummaryFrom_some_ge {m : M α γ} {lines : List α} :
    ∀ (fuel s : Nat) {d : Nat},
      findSummaryFrom m lines fuel s = .ok (some d) → s ≤ d
  | 0, s, d, h => by cases h
  | fuel + 1, s, d, h => by
    simp only [findSummaryFrom, Bind.bind, Except.bind] at h
    by_cases hc : s < lines.length <;> simp only [hc, if_true, if_false] at h
    · rcases hb : Diffstat.listSummaryStartsAt m.ds lines s with e | b <;> rw [hb] at h
      · cases h
      · simp [pure, Except.pure] at h
        cases b
        · simp at h
          have hrec := findSummaryFrom_some_ge fuel (s + 1) h
          omega
        · simp at h
          omega
    · simp [pure, Except.pure] at h

theorem headerOfLines_toLines {m : M α γ} {hl : List α} {hd : Header α}
    (h : headerOfLines m hl = .ok hd) : Header.toLines hd = hl := by
  simp only [headerOfLines, Bind.bind, Except.bind] at h
  rcases hf : findSummaryFrom m hl (hl.length + 1) (countWhile m.startsHash hl)
    with e | dso <;> rw [hf] at h
  · cases h
  · simp [pure, Except.pure] at h
    rcases dso with _ | d
    · obtain rfl : (⟨hl.take (countWhile m.startsHash hl),
          hl.drop (countWhile m.startsHash hl), []⟩ : Header α) = hd := by simpa using h
      simp [Header.toLines, List.take_append_drop]
    · have hge := findSummaryFrom_some_ge (hl.length + 1) (countWhile m.startsHash hl) hf
      obtain rfl : (⟨hl.take (countWhile m.startsHash hl),
          pySlice hl (countWhile m.startsHash hl) d, hl.drop d⟩ : Header α) = hd := by
        simpa using h
      simp only [Header.toLines]
      exact header_split hl hge

theorem parsePatchLoop_toLines {m : M α γ} {lines : List α} :
    ∀ (fuel index : Nat) (dsa : Option Nat) (dps : List (DiffPlus α γ)) {p : Patch α γ},
      index ≤ lines.length →
      (∀ d0, dsa = some d0 → d0 ≤ index ∧ dps ≠ [] ∧
        (dps.map DiffPlus.toLines).flatten = pySlice lines d0 index) →
      (dsa = none → dps = []) →
      parsePatchLoop m lines fuel index dsa dps = .ok p →
      Patch.toLines p = lines
  | 0, index, dsa, dps, p, _, _, _, h => by cases h
  | fuel + 1, index, dsa, dps, p, hle, hinv, hinv2, h => by
    simp only [parsePatchLoop, Bind.bind, Except.bind] at h
    by_cases hc : index < lines.length <;> simp only [hc, if_true, if_false] at h
    · rcases h1 : getDiffPlusAt m lines index dsa.isSome with e | ⟨dpo, idx2⟩ <;> rw [h1] at h
      · cases h
      · simp [pure, Except.pure] at h
        rcases dpo with _ | dp
        · simp [pure, Except.pure] at h
          rcases h2 : pyGet lines index with e | line <;> rw [h2] at h
          · cases h
          · simp [pure, Except.pure] at h
            by_cases hemp : dps = []
            · subst hemp
              simp at h
              have hnone : dsa = none := by
                rcases dsa with _ | d0
                · rfl
                · exact absurd rfl (hinv d0 rfl).2.1
              subst hnone
              exact parsePatchLoop_toLines fuel (index + 1) none [] (by omega)
                (fun d0 hd0 => by cases hd0) (fun _ => rfl) h
            · have hds : ∃ d0, dsa = some d0 := by
                rcases dsa with _ | d0
                · exact absurd (hinv2 rfl) hemp
                · exact ⟨d0, rfl⟩
              obtain ⟨d0, rfl⟩ := hds
              obtain ⟨hdle, -, hflat⟩ := hinv d0 rfl
              have he : dps.isEmpty = false := by
                cases dps
                · exact absurd rfl hemp
                · rfl
              simp [he] at h
              have hline : lines[index]? = some line := pyGet_ok_get h2
              have hline2 : lines.get? index = some line := by
                rw [List.get?_eq_getElem?]
                exact hline
              refine parsePatchLoop_toLines fuel (index + 1) (some d0)
                (appendJunk dps line) (by omega) ?_ ?_ h
              · intro d1 hd1
                obtain rfl : d0 = d1 := by cases hd1; rfl
                refine ⟨by omega, appendJunk_ne_nil hemp, ?_⟩
                rw [appendJunk_flatten line dps hemp, hflat, ← pySlice_singleton hline2]
                exact pySlice_append lines hdle (Nat.le_succ index)
              · intro hx
                cases hx
        · obtain ⟨hs1, hs2, hs3⟩ := getDiffPlusAt_spans (Nat.le_of_lt hc) h1
          rcases dsa with _ | d0
          · have hdps : dps = [] := hinv2 rfl
            subst hdps
            refine parsePatchLoop_toLines fuel idx2 (some index) [dp] hs2 ?_ ?_ h
            · intro d1 hd1
              obtain rfl : index = d1 := by cases hd1; rfl
              refine ⟨hs1, by simp, ?_⟩
              simpa using hs3
            · intro hx
              cases hx
          · obtain ⟨hdle, -, hflat⟩ := hinv d0 rfl
            refine parsePatchLoop_toLines fuel idx2 (some d0) (dps ++ [dp]) hs2 ?_ ?_ h
            · intro d1 hd1
              obtain rfl : d0 = d1 := by cases hd1; rfl
              refine ⟨by omega, by simp, ?_⟩
              simp only [List.map_append, List.flatten_append, List.map_cons, List.map_nil,
                List.flatten_cons, List.flatten_nil, List.append_nil]
              rw [hflat, hs3]
              exact pySlice_append lines hdle hs1
            · intro hx
              cases hx
    · have hlen : index = lines.length := by omega
      subst hlen
      rcases dsa with _ | d0
      · have hdps : dps = [] := hinv2 rfl
        subst hdps
        simp [pure, Except.pure] at h
        rcases hh : headerOfLines m lines with e | hdr <;> rw [hh] at h
        · cases h
        · have hht := headerOfLines_toLines hh
          obtain rfl : (⟨hdr, []⟩ : Patch α γ) = p := by simpa [pure, Except.pure] using h
          simp [Patch.toLines, hht]
      · obtain ⟨hdle, -, hflat⟩ := hinv d0 rfl
        simp [pure, Except.pure] at h
        rcases hh : headerOfLines m (lines.take d0) with e | hdr <;> rw [hh] at h
        · cases h
        · have hht := headerOfLines_toLines hh
          obtain rfl : (⟨hdr, dps⟩ : Patch α γ) = p := by simpa [pure, Except.pure] using h
          simp only [Patch.toLines]
          rw [hht, hflat, pySlice_to_len]
          exact List.take_append_drop d0 lines

/-- C1: for every matcher family and every line list on which
`Patch.parse_lines` succeeds, re-serialising the parsed `Patch` —
the header followed by each diff-plus's preambles, diff and trailing
junk — reproduces the input lines exactly. -/
theorem C1_round_trip (m : M α γ) (lines : List α) (p : Patch α γ)
    (h : parsePatchLines m lines = .ok p) : Patch.toLines p = lines := by
  unfold parsePatchLines at h
  exact parsePatchLoop_toLines (lines.length + 1) 0 none [] (Nat.zero_le _)
    (fun d0 hd0 => by cases hd0) (fun _ => rfl) h

theorem C1_round_trip_witness :
    parsePatchLines exampleMatcher exampleLines = .ok exampleParsedPatch ∧
    Patch.toLines exampleParsedPatch = exampleLines := by
  have hp : parsePatchLines exampleMatcher exampleLines = .ok exampleParsedPatch := by
    decide
  exact ⟨hp, C1_round_trip exampleMatcher exampleLines exampleParsedPatch hp⟩

/-- **C9.** `GitBinaryDiff.get_data_at` / `get_diff_at`: (1) when the
introducer, body, blank-line check, base-85 decode and decompression all
succeed but the decompressed length differs from the size declared on the
`literal`/`delta` line, the data-block parser raises the size-mismatch
`DataError`; (2) a git binary patch whose forward block parses and whose
reverse position yields no block parses successfully with `reverse = none`;
(3) when no forward block is present (and malformed input is to be
reported) the patch is rejected with the no-content parse error. -/
theorem C9_git_binary_size_and_blocks :
    (∀ (m : M α γ) (lines : List α) (i : Nat) (l : α) (ms : String × Nat) (bl : α)
        (dz : γ) (rs : Nat),
        lines[i]? = some l → m.dataStart l = some ms →
        pyGet lines ((i + 1) + countWhile m.b85Line (lines.drop (i + 1))) = .ok bl →
        m.decodeLines
            (pySlice lines (i + 1) ((i + 1) + countWhile m.b85Line (lines.drop (i + 1)))) =
          .ok dz →
        m.decompressLen dz = .ok rs → rs ≠ ms.2 →
        gitBinGetDataAt m lines i = .error (.dataErr "Git binary patch size mismatch.")) ∧
    (∀ (m : M α γ) (lines : List α) (i : Nat) (l0 : α) (raiseIf : Bool)
        (fd : GitBinData α γ) (j j' : Nat),
        pyGet lines i = .ok l0 → m.gitBinStart l0 = true →
        gitBinGetDataAt m lines (i + 1) = .ok (some fd, j) →
        gitBinGetDataAt m lines j = .ok (none, j') →
        gitBinGetDiffAt m lines i raiseIf =
          .ok (some ⟨pySlice lines i j', some fd, none⟩, j')) ∧
    (∀ (m : M α γ) (lines : List α) (i : Nat) (l0 : α) (j : Nat),
        pyGet lines i = .ok l0 → m.gitBinStart l0 = true →
        gitBinGetDataAt m lines (i + 1) = .ok (none, j) →
        gitBinGetDiffAt m lines i true =
          .error (.parseErr "No content in GIT binary patch text.")) := by
  refine ⟨?_, ?_, ?_⟩
  · intro m lines i l ms bl dz rs hl hds hbl hdz hrs hne
    simp [gitBinGetDataAt, Bind.bind, Except.bind, List.get?_eq_getElem?, hl, hds, hbl,
      hdz, hrs, hne, pure, Except.pure]
  · intro m lines i l0 raiseIf fd j j' h0 hg h1 h2
    simp [gitBinGetDiffAt, Bind.bind, Except.bind, h0, hg, h1, h2, pure, Except.pure]
  · intro m lines i l0 j h0 hg h1
    simp [gitBinGetDiffAt, Bind.bind, Except.bind, h0, hg, h1, pure, Except.pure]

theorem C9_git_binary_size_and_blocks_witness :
    gitBinGetDataAt exampleMatcherBad ["literal 5\n", "Tb85data\n", "\n"] 0 =
      .error (.dataErr "Git binary patch size mismatch.") ∧
    gitBinGetDiffAt exampleMatcher
        ["GIT binary patch\n", "literal 5\n", "Tb85data\n", "\n"] 0 true =
      .ok (some ⟨pySlice ["GIT binary patch\n", "literal 5\n", "Tb85data\n", "\n"] 0 4,
        some ⟨pySlice ["GIT binary patch\n", "literal 5\n", "Tb85data\n", "\n"] 1 4,
          "literal", 5, ()⟩, none⟩, 4) ∧
    gitBinGetDiffAt exampleMatcher ["GIT binary patch\n", "junk\n"] 0 true =
      .error (.parseErr "No content in GIT binary patch text.") :=
  ⟨C9_git_binary_size_and_blocks.1 exampleMatcherBad ["literal 5\n", "Tb85data\n", "\n"]
      0 "literal 5\n" ("literal", 5) "\n" () 7 rfl rfl rfl rfl rfl (by decide),
   C9_git_binary_size_and_blocks.2.1 exampleMatcher
      ["GIT binary patch\n", "literal 5\n", "Tb85data\n", "\n"] 0 "GIT binary patch\n"
      true ⟨pySlice ["GIT binary patch\n", "literal 5\n", "Tb85data\n", "\n"] 1 4,
        "literal", 5, ()⟩ 4 4 rfl rfl (by decide) (by decide),
   C9_git_binary_size_and_blocks.2.2 exampleMatcher ["GIT binary patch\n", "junk\n"]
      0 "GIT binary patch\n" 1 rfl rfl (by decide)⟩

/-- **C10.** When a git binary data block's base-85 body runs to the end
of the input (the block's final line is the last line), the blank-line
check `lines[index]` indexes one position past the end and
`get_data_at` raises `IndexError` instead of returning the parsed
block. -/
theorem C10_git_binary_eof_index_error (m : M α γ) (lines : List α) (i : Nat)
    (l : α) (ms : String × Nat)
    (hl : lines[i]? = some l) (hds : m.dataStart l = some ms)
    (hend : (i + 1) + countWhile m.b85Line (lines.drop (i + 1)) = lines.length) :
    gitBinGetDataAt m lines i = .error .indexErr := by
  have hoob : pyGet lines ((i + 1) + countWhile m.b85Line (lines.drop (i + 1))) =
      .error .indexErr := by
    rw [hend]
    exact pyGet_oob (Nat.le_refl _)
  simp [gitBinGetDataAt, Bind.bind, Except.bind, List.get?_eq_getElem?, hl, hds, hoob]

theorem C10_git_binary_eof_index_error_witness :
    gitBinGetDataAt exampleMatcher ["literal 5\n", "Tb85data\n"] 0 = .error .indexErr :=
  C10_git_binary_eof_index_error exampleMatcher ["literal 5\n", "Tb85data\n"] 0
    "literal 5\n" ("literal", 5) rfl rfl (by decide)

theorem uniBodyLoop_quota {m : M α γ} {lines : List α} {bl al : Nat} :
    ∀ (fuel i bc ac : Nat) {idx : Nat},
      uniBodyLoop m lines bl al fuel i bc ac = .ok idx →
      bl ≤ bc + scanBefore m (pySlice lines i idx) ∧
      al ≤ ac + scanAfter m (pySlice lines i idx)
  | 0, i, bc, ac, idx, h => by cases h
  | fuel + 1, i, bc, ac, idx, h => by
    simp only [uniBodyLoop] at h
    by_cases hq : bc < bl ∨ ac < al <;> simp only [hq, if_true, if_false] at h
    · split at h
      · cases h
      · rename_i l hgl
        have hgl2 : lines[i]? = some l := List.get?_eq_getElem? lines i ▸ hgl
        have hle2 : i + 1 ≤ lines.length := getElem?_some_lt hgl2
        split at h
        · rename_i hd
          have hd2 : m.startsDash l = true := hd
          have hrec : bl ≤ (bc + 1) + scanBefore m (pySlice lines (i + 1) idx) ∧
              al ≤ ac + scanAfter m (pySlice lines (i + 1) idx) :=
            uniBodyLoop_quota fuel (i + 1) (bc + 1) ac h
          have hbd : i + 1 ≤ idx ∧ idx ≤ lines.length :=
            uniBodyLoop_bounds fuel (i + 1) (bc + 1) ac hle2 h
          rw [pySlice_cons hgl2 (by omega)]
          simp [scanBefore, scanAfter, hd2]
          omega
        · rename_i hnd
          have hnd2 : m.startsDash l = false := by simpa using hnd
          split at h
          · rename_i hp
            have hp2 : m.startsPlus l = true := hp
            have hrec : bl ≤ bc + scanBefore m (pySlice lines (i + 1) idx) ∧
                al ≤ (ac + 1) + scanAfter m (pySlice lines (i + 1) idx) :=
              uniBodyLoop_quota fuel (i + 1) bc (ac + 1) h
            have hbd : i + 1 ≤ idx ∧ idx ≤ lines.length :=
              uniBodyLoop_bounds fuel (i + 1) bc (ac + 1) hle2 h
            rw [pySlice_cons hgl2 (by omega)]
            simp [scanBefore, scanAfter, hnd2, hp2]
            omega
          · rename_i hnp
            have hnp2 : m.startsPlus l = false := by simpa using hnp
            split at h
            · rename_i hs
              have hs2 : m.startsSpace l = true := hs
              have hrec : bl ≤ (bc + 1) + scanBefore m (pySlice lines (i + 1) idx) ∧
                  al ≤ (ac + 1) + scanAfter m (pySlice lines (i + 1) idx) :=
                uniBodyLoop_quota fuel (i + 1) (bc + 1) (ac + 1) h
              have hbd : i + 1 ≤ idx ∧ idx ≤ lines.length :=
                uniBodyLoop_bounds fuel (i + 1) (bc + 1) (ac + 1) hle2 h
              rw [pySlice_cons hgl2 (by omega)]
              simp [scanBefore, scanAfter, hnd2, hnp2, hs2]
              omega
            · rename_i hns
              have hns2 : m.startsSpace l = false := by simpa using hns
              split at h
              · cases h
              · have hrec : bl ≤ bc + scanBefore m (pySlice lines (i + 1) idx) ∧
                    al ≤ ac + scanAfter m (pySlice lines (i + 1) idx) :=
                  uniBodyLoop_quota fuel (i + 1) bc ac h
                have hbd : i + 1 ≤ idx ∧ idx ≤ lines.length :=
                  uniBodyLoop_bounds fuel (i + 1) bc ac hle2 h
                rw [pySlice_cons hgl2 (by omega)]
                simp [scanBefore, scanAfter, hnd2, hnp2, hns2]
                omega
    · cases h
      push_neg at hq
      simp [pySlice_nil, scanBefore, scanAfter]
      omega

/-- **C6 (counterexample).** The claim says the hunk-body loop consumes
lines until *exactly* `l1` before-counted and `l2` after-counted lines
have been seen.  The loop (unified_diff.py:153) actually runs while
*either* quota is unmet, so a counter can overshoot its declared length
without any error: for declared lengths `(0, 1)` and body
`["-a\n", "+b\n"]` the hunk parses successfully although the consumed
body contains one before-counted line (`scanBefore … = 1 ≠ 0`). -/
theorem C6_quota_overshoot_counterexample :
    uniGetHunkAt exampleMatcherQ ["@@ -1,0 +1,1 @@\n", "-a\n", "+b\n"] 0 =
      .ok (some ⟨["@@ -1,0 +1,1 @@\n", "-a\n", "+b\n"], ⟨1, 0⟩, ⟨1, 1⟩⟩, 3) ∧
    scanBefore exampleMatcherQ ["-a\n", "+b\n"] = 1 :=
  ⟨by decide, by decide⟩

/-- **C6 (amended).** What is true of the hunk-body loop: on success each
declared quota is *reached or exceeded* by the consumed body lines under
the claim's per-line counting rule (`-` before, `+` after, space both,
`\` neither; conjunct 1), a line with any other leading character while a
quota is unmet raises the unexpected-end-of-unified-diff-hunk parse error
(conjunct 3), and running out of input while a quota is unmet raises the
unexpected-end-of-patch error (conjunct 2). -/
theorem C6_hunk_body_quota_scan :
    (∀ (m : M α γ) (lines : List α) (bl al fuel i bc ac idx : Nat),
      uniBodyLoop m lines bl al fuel i bc ac = .ok idx →
      bl ≤ bc + scanBefore m (pySlice lines i idx) ∧
      al ≤ ac + scanAfter m (pySlice lines i idx)) ∧
    (∀ (m : M α γ) (lines : List α) (bl al fuel i bc ac : Nat),
      (bc < bl ∨ ac < al) → lines[i]? = none →
      uniBodyLoop m lines bl al (fuel + 1) i bc ac =
        .error (.parseErr "Unexpected end of patch text.")) ∧
    (∀ (m : M α γ) (lines : List α) (bl al fuel i bc ac : Nat) (l : α),
      (bc < bl ∨ ac < al) → lines[i]? = some l →
      m.startsDash l = false → m.startsPlus l = false → m.startsSpace l = false →
      m.startsBackslash l = false →
      uniBodyLoop m lines bl al (fuel + 1) i bc ac =
        .error (.parseErr "Unexpected end of unified diff hunk.")) := by
  refine ⟨?_, ?_, ?_⟩
  · intro m lines bl al fuel i bc ac idx h
    exact uniBodyLoop_quota fuel i bc ac h
  · intro m lines bl al fuel i bc ac hq hn
    simp [uniBodyLoop, hq, hn, throw, throwThe, MonadExceptOf.throw]
  · intro m lines bl al fuel i bc ac l hq hl hd hp hs hb
    simp [uniBodyLoop, hq, hl, hd, hp, hs, hb, throw, throwThe, MonadExceptOf.throw]

theorem C6_hunk_body_quota_scan_witness :
    ((0 : Nat) ≤ 0 + scanBefore exampleMatcherQ (pySlice ["-a\n", "+b\n"] 0 2) ∧
      (1 : Nat) ≤ 0 + scanAfter exampleMatcherQ (pySlice ["-a\n", "+b\n"] 0 2)) ∧
    uniBodyLoop exampleMatcherQ ["-a\n"] 1 1 1 1 0 0 =
      .error (.parseErr "Unexpected end of patch text.") ∧
    uniBodyLoop exampleMatcherQ ["x\n"] 1 1 1 0 0 0 =
      .error (.parseErr "Unexpected end of unified diff hunk.") :=
  ⟨C6_hunk_body_quota_scan.1 exampleMatcherQ ["-a\n", "+b\n"] 0 1 3 0 0 0 2 (by decide),
   C6_hunk_body_quota_scan.2.1 exampleMatcherQ ["-a\n"] 1 1 0 1 0 0
     (by decide) (by decide),
   C6_hunk_body_quota_scan.2.2 exampleMatcherQ ["x\n"] 1 1 0 0 0 0 "x\n"
     (by decide) (by decide) (by decide) (by decide) (by decide) (by decide)⟩

end Parse

end Pysm
